import Mathlib

/-!
# Verification of the podcast-matchmaker recommendation core

A shallow embedding, in Lean 4, of the candidate-generation, scoring and
ranking pipeline of the repository (backend text utilities, similarity
engine, ranker, recommendation assembler), together with theorems settling
the specification claims about it.

Conventions of the embedding:
* JavaScript numbers are modelled as real numbers (`ℝ`); `Math.sqrt` is
  `Real.sqrt`.
* JavaScript strings are Lean `String`s; regular-expression operations of
  `preprocessText` are modelled character by character over `String.data`.
* Possibly-absent object fields (`title`, `description_original`, …) are
  `Option String`; the JS idiom `a || b` on strings (where both `undefined`
  and `""` are falsy) is the function `strOr`.
* External services (the Hugging Face embedding provider behind
  `generateEmbedding`, and the TF-IDF engine of the `natural` library behind
  `extractTopics`) are black boxes per the spec; functions that call them
  take the corresponding function (`ef` for embeddings, `tf` for topics) as
  an explicit parameter, and theorems quantify over it.
* JavaScript `Map`/`Set`/object-key iteration is modelled by association
  lists in insertion order, and `Array.prototype.sort` (stable) by a stable
  insertion sort.
* The pure model cannot throw: `try`/`catch` wrappers in the source are
  consequently without effect and are noted where they occur.
-/

/-! ## Character classes and lowercasing

`preprocessText` (text-processing.js lines 333-341) uses the regexes
`/<[^>]*>/g`, `/[^\w\s]/g` and `/\s+/g`.  `\w` is `[A-Za-z0-9_]`;
`\s` is the ECMAScript whitespace class. -/

/-- ECMAScript `\w` (word character): `[A-Za-z0-9_]`. -/
def jsIsWordChar (c : Char) : Bool :=
  (97 ≤ c.toNat && c.toNat ≤ 122)     -- a-z
  || (65 ≤ c.toNat && c.toNat ≤ 90)   -- A-Z
  || (48 ≤ c.toNat && c.toNat ≤ 57)   -- 0-9
  || c.toNat == 95                    -- _

/-- ECMAScript `\s` (whitespace class): tab, LF, VT, FF, CR, space, NBSP,
Ogham space, the U+2000–U+200A range, LS, PS, NNBSP, MMSP, ideographic
space and the BOM. -/
def jsIsSpace (c : Char) : Bool :=
  c.toNat == 32 || c.toNat == 9 || c.toNat == 10 || c.toNat == 11
  || c.toNat == 12 || c.toNat == 13 || c.toNat == 160 || c.toNat == 5760
  || (8192 ≤ c.toNat && c.toNat ≤ 8202) || c.toNat == 8232
  || c.toNat == 8233 || c.toNat == 8239 || c.toNat == 8287
  || c.toNat == 12288 || c.toNat == 65279

/-- Model of `String.prototype.toLowerCase` on one character (ASCII case
mapping: `A`-`Z` map to `a`-`z`; all text reaching the claims is ASCII). -/
def jsToLower (c : Char) : Char :=
  if 65 ≤ c.toNat && c.toNat ≤ 90 then Char.ofNat (c.toNat + 32) else c

/-- `String.prototype.toLowerCase`. -/
def jsToLowerString (s : String) : String :=
  ⟨s.data.map jsToLower⟩

/-! ## `preprocessText` (text-processing.js lines 333-341)

```js
const preprocessText = (text) => {
  if (!text) return '';
  return text.toLowerCase()
    .replace(/<[^>]*>/g, ' ')         // Remove HTML tags
    .replace(/[^\w\s]/g, ' ')         // Remove special characters
    .replace(/\s+/g, ' ').trim();     // Normalize whitespace
};
```
-/

/-- One step of the global replace of `/<[^>]*>/g` by a space.  The second
argument is `none` while scanning outside a potential tag and `some buf`
(with `buf` holding, reversed, the characters read since an unmatched `<`)
while looking for the closing `>`.  If the input ends inside an unclosed
`<…` the regex never matched there, so the buffered characters are restored
verbatim. -/
def stripTagsAux : List Char → Option (List Char) → List Char
  | [], none => []
  | [], some buf => '<' :: buf.reverse
  | c :: rest, none =>
      if c = '<' then stripTagsAux rest (some [])
      else c :: stripTagsAux rest none
  | c :: rest, some buf =>
      if c = '>' then ' ' :: stripTagsAux rest none
      else stripTagsAux rest (some (c :: buf))

/-- `.replace(/<[^>]*>/g, ' ')`: every `<…>` group (up to the first `>`)
becomes one space. -/
def stripTags (l : List Char) : List Char := stripTagsAux l none

/-- `.replace(/[^\w\s]/g, ' ')`: every character outside `\w` and `\s`
becomes a space. -/
def stripNonWord (l : List Char) : List Char :=
  l.map fun c => if jsIsWordChar c || jsIsSpace c then c else ' '

/-- One pass of the global replace of `/\s+/g` by a single space; the flag
records whether the previous character belonged to a whitespace run whose
replacement space has already been emitted. -/
def collapseWsAux : Bool → List Char → List Char
  | _, [] => []
  | inRun, c :: rest =>
      if jsIsSpace c then
        if inRun then collapseWsAux true rest
        else ' ' :: collapseWsAux true rest
      else c :: collapseWsAux false rest

/-- `.replace(/\s+/g, ' ')`: each maximal whitespace run becomes one space. -/
def collapseWs (l : List Char) : List Char := collapseWsAux false l

/-- `String.prototype.trim`: strip leading and trailing whitespace. -/
def jsTrim (l : List Char) : List Char :=
  ((l.dropWhile jsIsSpace).reverse.dropWhile jsIsSpace).reverse

/-- `preprocessText` (text-processing.js lines 333-341). -/
def preprocessText (text : String) : String :=
  if text = "" then ""
  else ⟨jsTrim (collapseWs (stripNonWord (stripTags (text.data.map jsToLower))))⟩

/-! ## Tokenisation and filtering (text-processing.js lines 311-354) -/

/-- `String.prototype.split(' ')` (split on the one-character separator), on
character lists: the fields between the single-space occurrences.  Always
returns at least one (possibly empty) field, as in JavaScript. -/
def splitOnSpace : List Char → List (List Char)
  | [] => [[]]
  | c :: rest =>
      match splitOnSpace rest with
      | [] => [[]]
      | f :: fs => if c = ' ' then [] :: f :: fs else (c :: f) :: fs

/-- Modelled from the spec: the "standard stop-word list" used through the
external `stopword` library's `removeStopwords` (its default English list;
the library itself is a third-party dependency, not part of the repository
sources).  Transcribed from the library's published English list. -/
def stopwordsEN : List String :=
  ["a", "about", "above", "after", "again", "against", "all", "am", "an",
   "and", "any", "are", "as", "at", "be", "because", "been", "before",
   "being", "below", "between", "both", "but", "by", "can", "cannot",
   "could", "did", "do", "does", "doing", "down", "during", "each", "few",
   "for", "from", "further", "had", "has", "have", "having", "he", "her",
   "here", "hers", "herself", "him", "himself", "his", "how", "i", "if",
   "in", "into", "is", "it", "its", "itself", "me", "more", "most", "my",
   "myself", "no", "nor", "not", "of", "off", "on", "once", "only", "or",
   "other", "ought", "our", "ours", "ourselves", "out", "over", "own",
   "same", "she", "should", "so", "some", "such", "than", "that", "the",
   "their", "theirs", "them", "themselves", "then", "there", "these",
   "they", "this", "those", "through", "to", "too", "under", "until", "up",
   "very", "was", "we", "were", "what", "when", "where", "which", "while",
   "who", "whom", "why", "with", "would", "you", "your", "yours",
   "yourself", "yourselves"]

/-- `stopword.removeStopwords(tokens)` with the default English list. -/
def removeStopwords (tokens : List String) : List String :=
  tokens.filter fun t => !(stopwordsEN.contains t)

/-- The repository's own stop set (text-processing.js lines 319-326). -/
def commonWords : List String :=
  ["the", "and", "a", "an", "in", "on", "at", "to", "for", "of", "is",
   "are", "was", "were", "this", "that", "these", "those", "it", "they",
   "we", "you", "he", "she", "his", "her", "them", "their", "our", "your",
   "its", "has", "have", "had", "been", "would", "could", "should", "will",
   "can", "may", "might", "with", "from", "by", "about", "all", "but",
   "not", "what", "when", "where", "who", "how", "why", "which", "podcast",
   "show", "episode", "episodes", "season", "seasons", "listen",
   "listening", "host", "hosts", "guest", "guests", "talk", "talks"]

/-- Models the JavaScript test `isNaN(token)` being false, i.e. the token
parses as a number.  Tokens reaching this test consist of characters in
`[a-z0-9_]` (they come out of `preprocessText`); on that alphabet a string
is numeric when it is empty (`Number('') === 0`), all decimal digits, or a
`0x…` hexadecimal literal.  (Exponent forms such as `1e5` are not modelled;
no claim involves such a token.) -/
def jsIsNumericString (s : String) : Bool :=
  match s.data with
  | [] => true
  | cs =>
      cs.all (fun c => c.isDigit)
      || (match cs with
          | '0' :: 'x' :: rest =>
              !rest.isEmpty && rest.all (fun c =>
                c.isDigit || (97 ≤ c.toNat && c.toNat ≤ 102) || (65 ≤ c.toNat && c.toNat ≤ 70))
          | _ => false)

/-- `filterTokens` (text-processing.js lines 348-354): remove stop words,
tokens of length ≤ 3, domain stop words, and numeric tokens. -/
def filterTokens (tokens : List String) : List String :=
  if tokens = [] then []
  else (removeStopwords tokens).filter fun token =>
    decide (3 < token.length) && !(commonWords.contains token)
      && !(jsIsNumericString token)

/-! ## Word-frequency counting and the stable descending sort

A JavaScript object whose keys are the (non-numeric) tokens preserves
insertion order, so `Object.entries(wordFreq)` lists the tokens in order of
first appearance; `Array.prototype.sort` with comparator `b[1] - a[1]` is a
stable sort descending by count.  Both are modelled on association lists. -/

/-- `wordFreq[word] = (wordFreq[word] || 0) + 1` on an insertion-ordered
association list. -/
def bumpFreq : List (String × Nat) → String → List (String × Nat)
  | [], w => [(w, 1)]
  | p :: rest, w =>
      if p.1 = w then (p.1, p.2 + 1) :: rest else p :: bumpFreq rest w

/-- Count occurrences in first-appearance order (the object built by the
`forEach` loops of text-processing.js / search-util.js). -/
def countFreq (ws : List String) : List (String × Nat) :=
  ws.foldl bumpFreq []

/-- Insert into a list already sorted by count descending, after every
entry of greater-or-equal count (so that the sort below is stable, like
`Array.prototype.sort`). -/
def insertByCount (x : String × Nat) : List (String × Nat) → List (String × Nat)
  | [] => [x]
  | y :: ys => if y.2 ≤ x.2 then x :: y :: ys else y :: insertByCount x ys

/-- Stable sort descending by count: `.sort((a, b) => b[1] - a[1])`. -/
def sortByCountDesc : List (String × Nat) → List (String × Nat)
  | [] => []
  | x :: xs => insertByCount x (sortByCountDesc xs)

/-- `extractKeywords` (text-processing.js lines 401-424): preprocess, split
on spaces, filter tokens, count frequencies, take the top `limit` by
descending frequency.  The `try`/`catch` in the source cannot fire in the
pure model. -/
def extractKeywords (text : String) (limit : Nat := 10) : List String :=
  if text = "" then []
  else
    let processed := preprocessText text
    let words := (splitOnSpace processed.data).map List.asString
    let filteredWords := filterTokens words
    let wordFreq := countFreq filteredWords
    (((sortByCountDesc wordFreq).take limit).map (·.1))

/-! ## The podcast data model

Fields may arrive under alternate names (`title` vs `title_original`); the
JS code reads them with `a || b` fallbacks, where both a missing field and
the empty string are falsy. -/

/-- A podcast object as consumed by the pipeline.  Only the fields the
embedded functions read are modelled. -/
structure Podcast where
  id : String
  title : Option String := none
  title_original : Option String := none
  description : Option String := none
  description_original : Option String := none
  publisher : Option String := none
  publisher_original : Option String := none
  genre_ids : List Nat := []
deriving DecidableEq

/-- The JS idiom `a || b` for a possibly-missing string field: `undefined`
and `""` are both falsy. -/
def strOr (a : Option String) (b : String) : String :=
  match a with
  | none => b
  | some s => if s = "" then b else s

/-- `podcast.description || podcast.description_original || ''`. -/
def descOf (p : Podcast) : String :=
  strOr p.description (strOr p.description_original "")

/-- `podcast.publisher || podcast.publisher_original` followed by
`.filter(Boolean)`: the empty string stands for a missing result. -/
def pubOf (p : Podcast) : String :=
  strOr p.publisher (strOr p.publisher_original "")

/-! ## Topics and the similarity engine (similarity.js, lines 160-311 of
the concatenated utils file) -/

/-- A topic as produced by `extractTopics`: `{term, score}`. -/
structure Topic where
  term : String
  score : ℝ

/-- Recommendation weights (similarity.js lines 175-180). -/
structure WeightsConfig where
  TITLE : ℝ
  DESCRIPTION : ℝ
  PUBLISHER : ℝ
  TOPIC_MATCH : ℝ

/-- `WEIGHTS = { TITLE: 2.0, DESCRIPTION: 3.0, PUBLISHER: 0.5,
TOPIC_MATCH: 1.5 }`. -/
noncomputable def WEIGHTS : WeightsConfig :=
  { TITLE := 2.0, DESCRIPTION := 3.0, PUBLISHER := 0.5, TOPIC_MATCH := 1.5 }

/-- `createWeightedText` (similarity.js lines 293-303): the template
`${title} ${title} ${description} ${description} ${description}
${publisher}`. -/
def createWeightedText (podcast : Podcast) : String :=
  let title := strOr podcast.title (strOr podcast.title_original "")
  let description := descOf podcast
  let publisher := pubOf podcast
  title ++ " " ++ title ++ " " ++ description ++ " " ++ description ++ " "
    ++ description ++ " " ++ publisher

/-- `calculateCosineSimilarity` (similarity.js lines 224-249).  The guard
returns 0 for empty or length-mismatched vectors; the dot product
`vec1.reduce((sum, a, i) => sum + a * vec2[i], 0)` is a fold over the
zipped vectors (the lengths agree past the guard); zero magnitudes give 0.
The `try`/`catch` cannot fire in the pure model. -/
noncomputable def calculateCosineSimilarity (vec1 vec2 : List ℝ) : ℝ :=
  if vec1.length = 0 ∨ vec2.length = 0 ∨ vec1.length ≠ vec2.length then 0
  else
    let dotProduct := (vec1.zip vec2).foldl (fun sum p => sum + p.1 * p.2) 0
    let magnitudeA := Real.sqrt (vec1.foldl (fun sum a => sum + a * a) 0)
    let magnitudeB := Real.sqrt (vec2.foldl (fun sum b => sum + b * b) 0)
    if magnitudeA = 0 ∨ magnitudeB = 0 then 0
    else dotProduct / (magnitudeA * magnitudeB)

/-- `Map.set` on an insertion-ordered association list: an existing key
keeps its position and gets the new value; a new key is appended. -/
noncomputable def mapInsert (m : List (String × ℝ)) (k : String) (v : ℝ) :
    List (String × ℝ) :=
  match m with
  | [] => [(k, v)]
  | p :: rest => if p.1 = k then (k, v) :: rest else p :: mapInsert rest k v

/-- `new Map(topics.map(t => [t.term, t.score]))`: later duplicate terms
overwrite earlier ones, iteration order is first-insertion order. -/
noncomputable def topicMap (ts : List Topic) : List (String × ℝ) :=
  ts.foldl (fun m t => mapInsert m t.term t.score) []

/-- `Map.get` / `Map.has` on the association-list model. -/
noncomputable def mapLookup (m : List (String × ℝ)) (k : String) : Option ℝ :=
  match m with
  | [] => none
  | p :: rest => if p.1 = k then some p.2 else mapLookup rest k

/-- `calculateTopicSimilarity` (similarity.js lines 257-286): for every
term of A (as a `Map`), accumulate its score into `totalPossibleScore` and,
when B has the term, `min(scoreA, scoreB)` into `matchScore`; return
`matchScore / totalPossibleScore` when the total is positive, else 0.
The `try`/`catch` cannot fire in the pure model. -/
noncomputable def calculateTopicSimilarity (topicsA topicsB : List Topic) : ℝ :=
  if topicsA.length = 0 ∨ topicsB.length = 0 then 0
  else
    let mA := topicMap topicsA
    let mB := topicMap topicsB
    let acc := mA.foldl
      (fun (acc : ℝ × ℝ) p =>
        (acc.1 + (match mapLookup mB p.1 with
                  | some sB => min p.2 sB
                  | none => 0),
         acc.2 + p.2))
      (0, 0)
    if 0 < acc.2 then acc.1 / acc.2 else 0

/-- The claim's reading of `calculateTopicSimilarity` (spec §4.2, claim C8),
written from the spec's words: the sum over every term of A that is also
present in B of the minimum of the two scores, divided by the sum of all of
A's scores (0 when either list is empty). -/
noncomputable def topicSimilaritySpec (topicsA topicsB : List Topic) : ℝ :=
  if topicsA.length = 0 ∨ topicsB.length = 0 then 0
  else
    (topicsA.map fun t =>
        match mapLookup (topicMap topicsB) t.term with
        | some sB => min t.score sB
        | none => 0).sum
      / (topicsA.map (·.score)).sum

/-! ## The query diversifier (search-util.js lines 11-156) -/

/-- A Listen Notes search query as built by `generateDiverseQueries`; every
strategy fills the same fixed fields. -/
structure SearchQuery where
  q : String
  type : String
  sort_by_date : Nat
  page_size : Nat
  only_in : String
  safe_mode : Nat
deriving DecidableEq

/-- The query record each strategy pushes: `{q, type: 'podcast',
sort_by_date: 0, page_size: 20, only_in: 'description', safe_mode: 0}`. -/
def defaultQuery (q : String) : SearchQuery :=
  { q := q, type := "podcast", sort_by_date := 0, page_size := 20,
    only_in := "description", safe_mode := 0 }

/-- `String.prototype.split(/\s+/)`: the fields between maximal whitespace
runs (a leading or trailing run contributes an empty field, as in
JavaScript). -/
def jsSplitWs : List Char → List (List Char)
  | [] => [[]]
  | [c] => if jsIsSpace c then [[], []] else [[c]]
  | c :: d :: rest =>
      match jsSplitWs (d :: rest) with
      | [] => [[]]
      | f :: fs =>
          if jsIsSpace c then
            if jsIsSpace d then f :: fs else [] :: f :: fs
          else (c :: f) :: fs

/-- `publishersToFilter` (search-util.js lines 21-26): the set of
whitespace-separated words of the lowercased publisher names. -/
def publisherWords (podcasts : List Podcast) : List String :=
  ((podcasts.map pubOf).filter (fun s => s ≠ "")).flatMap fun s =>
    (jsSplitWs (jsToLowerString s).data).map List.asString

/-- `extractThemesFromPodcasts` (search-util.js lines 82-101), with the
external-TF-IDF-backed `extractTopics` abstracted as `tf`: flatten each
podcast's top-10 description topics, count term frequencies, keep terms
appearing more than once, sort by frequency descending, take 3. -/
def extractThemesFromPodcasts (tf : String → Nat → List Topic)
    (podcasts : List Podcast) : List String :=
  let allTopics := podcasts.flatMap fun podcast =>
    (tf (descOf podcast) 10).map (·.term)
  let topicFrequency := countFreq allTopics
  (((sortByCountDesc (topicFrequency.filter fun p => 1 < p.2)).take 3).map (·.1))

/-- The `seen`-set filter of `removeDuplicateQueries` (search-util.js lines
148-156): keep the first occurrence of each structurally-equal query
(`JSON.stringify` equality coincides with structural equality on these
fixed-shape records). -/
def dedupQueriesAux (seen : List SearchQuery) :
    List SearchQuery → List SearchQuery
  | [] => []
  | q :: rest =>
      if seen.contains q then dedupQueriesAux seen rest
      else q :: dedupQueriesAux (q :: seen) rest

/-- `removeDuplicateQueries` (search-util.js lines 148-156). -/
def removeDuplicateQueries (queries : List SearchQuery) : List SearchQuery :=
  dedupQueriesAux [] queries

/-- The strategy-2 keyword list of `generateDiverseQueries` (search-util.js
lines 42-44): top-10 keywords of the joined descriptions, keeping truthy
keywords of length > 3 whose lowercasing is not a publisher word. -/
def strategy2Keywords (podcasts : List Podcast) : List String :=
  let descriptionTexts := String.intercalate " " (podcasts.map descOf)
  (extractKeywords descriptionTexts 10).filter fun kw =>
    kw ≠ "" && decide (3 < kw.length)
      && !((publisherWords podcasts).contains (jsToLowerString kw))

/-- The claim's reading of the strategy-2 filter (claim C4, spec §4.4.2),
written from the spec's words: keep keywords of length > 3 that are not
equal, case-insensitively, to any favorite's **whole** publisher name. -/
def strategy2SurvivorsSpec (podcasts : List Podcast) : List String :=
  let descriptionTexts := String.intercalate " " (podcasts.map descOf)
  (extractKeywords descriptionTexts 10).filter fun kw =>
    decide (3 < kw.length)
      && !(((podcasts.map pubOf).filter (fun s => s ≠ "")).map
            jsToLowerString).contains (jsToLowerString kw)

/-- `generateDiverseQueries` (search-util.js lines 11-75), with the
external-TF-IDF-backed `extractTopics` abstracted as `tf`.  Strategy 1
emits the top theme, strategy 2 the top surviving keyword, strategy 3 the
second theme; duplicates are removed.  The `try`/`catch` cannot fire in
the pure model. -/
def generateDiverseQueries (tf : String → Nat → List Topic)
    (podcasts : List Podcast) : List SearchQuery :=
  if podcasts = [] then []
  else
    let themes := extractThemesFromPodcasts tf podcasts
    let q1 := match themes with
      | t :: _ => [defaultQuery t]
      | [] => []
    let keywords := strategy2Keywords podcasts
    let q2 := match keywords with
      | k :: _ => [defaultQuery k]
      | [] => []
    let q3 := match themes with
      | _ :: t2 :: _ => [defaultQuery t2]
      | _ => []
    removeDuplicateQueries (q1 ++ q2 ++ q3)

/-! ## The ranker (recommendation logic, part_000 lines 116-180)

`generateEmbedding` is an external, cached API call; the ranker is embedded
as a function of the provider `ef : String → List ℝ` and of the
TF-IDF-backed `tf : String → Nat → List Topic` (the `await Promise.all`
structure has no observable effect on the computed values). -/

/-- `createWeightedText(podcast) || 'podcast content'` — the text actually
sent to the embedding provider. -/
def embedInput (p : Podcast) : String :=
  let weightedText := createWeightedText p
  if weightedText = "" then "podcast content" else weightedText

/-- One element of the per-candidate `similarities` array (part_000 lines
147-160). -/
structure SimEntry where
  favoriteId : String
  favoritePodcast : Podcast
  semanticScore : ℝ
  topicScore : ℝ
  score : ℝ

/-- The `similarities` array computed for one candidate (part_000 lines
147-160): one entry per favorite, with
`combinedScore = semanticScore * 0.7 + topicScore * WEIGHTS.TOPIC_MATCH * 0.3`. -/
noncomputable def similarities (ef : String → List ℝ)
    (tf : String → Nat → List Topic) (favoritePodcasts : List Podcast)
    (candidate : Podcast) : List SimEntry :=
  let candidateEmbedding := ef (embedInput candidate)
  let candidateTopics := tf (descOf candidate) 15
  favoritePodcasts.map fun fav =>
    let semanticScore :=
      calculateCosineSimilarity (ef (embedInput fav)) candidateEmbedding
    let topicScore :=
      calculateTopicSimilarity (tf (descOf fav) 15) candidateTopics
    { favoriteId := fav.id, favoritePodcast := fav,
      semanticScore := semanticScore, topicScore := topicScore,
      score := semanticScore * 0.7 + topicScore * WEIGHTS.TOPIC_MATCH * 0.3 }

/-- `similarities.reduce((max, item) => item.score > max.score ? item : max,
similarities[0])`: a fold over the whole array starting from its first
element, keeping the current entry unless a strictly greater score
appears. -/
noncomputable def bestFold (e : SimEntry) (l : List SimEntry) : SimEntry :=
  l.foldl (fun mx item => if item.score > mx.score then item else mx) e

/-- `bestFold` applied as the source applies it (`none` only on an empty
array, which the `rankCandidates` guard excludes). -/
noncomputable def bestEntry : List SimEntry → Option SimEntry
  | [] => none
  | e :: rest => some (bestFold e (e :: rest))

/-- One element of the ranked-candidates array (part_000 lines 166-174). -/
structure RankedCandidate where
  podcast : Podcast
  similarityScore : ℝ
  mostSimilarPodcastId : String
  mostSimilarPodcast : Podcast
  semanticScore : ℝ
  topicScore : ℝ
  matchScore : ℝ

/-- The per-candidate record of `rankCandidates` (part_000 lines 139-175):
the aggregate `similarityScore` is the mean of the combined scores over all
favorites, the remaining fields come from the best (first maximal) pairing.
The `none` branch of `bestEntry` is unreachable: `rankCandidates` only
calls this with a non-empty favorites list. -/
noncomputable def scoreCandidate (ef : String → List ℝ)
    (tf : String → Nat → List Topic) (favoritePodcasts : List Podcast)
    (candidate : Podcast) : RankedCandidate :=
  let sims := similarities ef tf favoritePodcasts candidate
  let avgSimilarity :=
    sims.foldl (fun sum item => sum + item.score) 0 / (sims.length : ℝ)
  match bestEntry sims with
  | none =>
      { podcast := candidate, similarityScore := avgSimilarity,
        mostSimilarPodcastId := "", mostSimilarPodcast := candidate,
        semanticScore := 0, topicScore := 0, matchScore := 0 }
  | some mostSimilar =>
      { podcast := candidate, similarityScore := avgSimilarity,
        mostSimilarPodcastId := mostSimilar.favoriteId,
        mostSimilarPodcast := mostSimilar.favoritePodcast,
        semanticScore := mostSimilar.semanticScore,
        topicScore := mostSimilar.topicScore,
        matchScore := mostSimilar.score }

/-- Insert into a list already sorted by `similarityScore` descending,
after every entry of greater-or-equal score (stability of
`Array.prototype.sort` with comparator `(a, b) => b.similarityScore -
a.similarityScore`). -/
noncomputable def insertRanked (x : RankedCandidate) :
    List RankedCandidate → List RankedCandidate
  | [] => [x]
  | y :: ys =>
      if y.similarityScore ≤ x.similarityScore then x :: y :: ys
      else y :: insertRanked x ys

/-- `.sort((a, b) => b.similarityScore - a.similarityScore)` (part_000 line
179): stable sort descending by the aggregate score. -/
noncomputable def sortBySimilarityDesc :
    List RankedCandidate → List RankedCandidate
  | [] => []
  | x :: xs => insertRanked x (sortBySimilarityDesc xs)

/-- `rankCandidates` (part_000 lines 116-180). -/
noncomputable def rankCandidates (ef : String → List ℝ)
    (tf : String → Nat → List Topic)
    (favoritePodcasts candidatePodcasts : List Podcast) :
    List RankedCandidate :=
  if favoritePodcasts = [] ∨ candidatePodcasts = [] then []
  else sortBySimilarityDesc
    (candidatePodcasts.map (scoreCandidate ef tf favoritePodcasts))

/-! ## The explanation generator (text-processing.js lines 478-523) -/

/-- `[...new Set(xs)]`: deduplicate keeping first occurrences. -/
def dedupNatAux (seen : List Nat) : List Nat → List Nat
  | [] => []
  | g :: rest =>
      if seen.contains g then dedupNatAux seen rest
      else g :: dedupNatAux (g :: seen) rest

/-- `Math.round` (half away from zero is irrelevant here: scores are
non-negative in practice; JavaScript rounds half toward +∞). -/
noncomputable def jsRound (x : ℝ) : ℤ := ⌊x + 1 / 2⌋

/-- `generateMatchReason` (text-processing.js lines 478-523).  Note the
caller passes the best pairing's *semantic* score as `matchScore`. -/
noncomputable def generateMatchReason (candidate mostSimilarPodcast : Podcast)
    (matchScore topicSimilarity : ℝ) : String :=
  if mostSimilarPodcast.title = none ∨ mostSimilarPodcast.title = some "" then
    "Match score: " ++ toString (jsRound (matchScore * 100))
      ++ "%. This podcast matches your listening preferences."
  else
    let commonGenres := (dedupNatAux [] candidate.genre_ids).filter
      fun g => mostSimilarPodcast.genre_ids.contains g
    let candidateKeywords := extractKeywords (strOr candidate.description "") 10
    let favoriteKeywords :=
      extractKeywords (strOr mostSimilarPodcast.description "") 10
    let commonKeywords := candidateKeywords.filter
      fun k => favoriteKeywords.contains k
    let r0 := "Similar to \"" ++ (mostSimilarPodcast.title.getD "") ++ "\". "
    let r1 := if commonGenres = [] then "" else "Shares the same genre. "
    let r2 := if commonKeywords = [] then ""
      else "Discusses similar topics like "
        ++ String.intercalate ", " (commonKeywords.take 3) ++ ". "
    let r3 := if 0.4 < topicSimilarity then "Strong thematic similarity in content. "
      else if 0.2 < topicSimilarity then "Some thematic overlap in content. "
      else ""
    let r4 := if 0.85 < matchScore then "Very strong content match."
      else if 0.7 < matchScore then "Strong content match."
      else if 0.5 < matchScore then "Moderate content similarity."
      else "Some content similarities."
    r0 ++ r1 ++ r2 ++ r3 ++ r4

/-! ## The recommendation assembler (part_000 lines 188-230) -/

/-- A final recommendation record (part_000 lines 209-221): the displayed
`similarity_score` is the best-pair combined score (`matchScore`), not the
aggregate used for sorting. -/
structure Recommendation where
  podcast : Podcast
  similarity_score : ℝ
  semantic_score : ℝ
  topic_score : ℝ
  reason : String
  most_similar_to : String

/-- The record map of `generateRecommendations` (part_000 lines 203-222).
The null checks of the source (`!candidate.podcast ||
!candidate.mostSimilarPodcast`, then `.filter(Boolean)`) cannot fire in the
total model, where every ranked candidate carries both podcasts. -/
noncomputable def toRecommendation (candidate : RankedCandidate) :
    Recommendation :=
  { podcast := candidate.podcast,
    similarity_score := candidate.matchScore,
    semantic_score := candidate.semanticScore,
    topic_score := candidate.topicScore,
    reason := generateMatchReason candidate.podcast
      candidate.mostSimilarPodcast candidate.semanticScore
      candidate.topicScore,
    most_similar_to := candidate.mostSimilarPodcastId }

/-- `generateRecommendations` (part_000 lines 188-230): guard empty inputs,
rank, map to recommendation records, return the top 10.  The `try`/`catch`
cannot fire in the pure model (all failure handling lives behind `ef`). -/
noncomputable def generateRecommendations (ef : String → List ℝ)
    (tf : String → Nat → List Topic)
    (favorites candidates : List Podcast) : List Recommendation :=
  if favorites = [] ∨ candidates = [] then []
  else
    let rankedCandidates := rankCandidates ef tf favorites candidates
    if rankedCandidates.length = 0 then []
    else (rankedCandidates.map toRecommendation).take 10

/-! ## The candidate collector (part_000 lines 23-108)

The genre and search fetches are external catalog I/O; the claims quantify
over "the multiset of podcasts accumulated from the catalog fetches", which
the embedding takes as the input `candidates`.  Lines 95-104 are the
deduplication/exclusion loop. -/

/-- The collection loop of `getCandidatePodcasts` (part_000 lines 99-104):
keep a podcast when its id is neither seen already nor a favorite's id;
`seenIds.add` happens only in that branch. -/
def dedupeCandidatesAux (favoriteIds : List String) (seenIds : List String) :
    List Podcast → List Podcast
  | [] => []
  | podcast :: rest =>
      if !(seenIds.contains podcast.id) && !(favoriteIds.contains podcast.id)
      then podcast :: dedupeCandidatesAux favoriteIds (podcast.id :: seenIds) rest
      else dedupeCandidatesAux favoriteIds seenIds rest

/-- `getCandidatePodcasts` (part_000 lines 23-108) with the fetched catalog
results abstracted as `candidates`: empty favorites short-circuit to `[]`;
otherwise the accumulated results are deduplicated by id, excluding
favorite ids. -/
def getCandidatePodcasts (favoritePodcasts : List Podcast)
    (candidates : List Podcast) : List Podcast :=
  if favoritePodcasts = [] then []
  else dedupeCandidatesAux (favoritePodcasts.map (·.id)) [] candidates

/-! ## Concrete fixtures for counterexamples and witnesses -/

/-- A trivial embedding provider: every text gets the empty vector, so
every semantic score is 0 (the cosine guard). -/
def efZero : String → List ℝ := fun _ => []

/-- A trivial topic extractor: no topics, so every topic score is 0. -/
def tfEmpty : String → Nat → List Topic := fun _ _ => []

/-- A topic extractor keyed on the four fixture descriptions below,
realising designed topic-similarity values. -/
noncomputable def tfFixture : String → Nat → List Topic := fun d _ =>
  if d = "f1" then [⟨"a", 1⟩]
  else if d = "f2" then [⟨"b", 1⟩]
  else if d = "x" then [⟨"a", 0.6⟩, ⟨"b", 0.6⟩]
  else if d = "y" then [⟨"a", 5⟩]
  else []

/-- Fixture favorite 1. -/
def favF1 : Podcast := { id := "F1", description := some "f1" }

/-- Fixture favorite 2. -/
def favF2 : Podcast := { id := "F2", description := some "f2" }

/-- Fixture candidate X: combined scores (0.27, 0.27) against the two
favorites, so mean 0.27 and best 0.27. -/
def candX : Podcast := { id := "X", description := some "x" }

/-- Fixture candidate Y: combined scores (0.45, 0) against the two
favorites, so mean 0.225 and best 0.45. -/
def candY : Podcast := { id := "Y", description := some "y" }

/-- Fixture favorite for the query-diversifier claim: its publisher's
second word ("media") is also the most frequent keyword of its
description. -/
def favC4 : Podcast :=
  { id := "fav1", publisher := some "Acme Media",
    description := some "media media chess" }

/-- The canonical form produced by `preprocessText`: every character is a
space-stable lowercase word character or the single space, whitespace never
occurs twice in a row, and the text neither starts nor ends with
whitespace. -/
def CanonicalText (l : List Char) : Prop :=
  (∀ c ∈ l, c = ' '
      ∨ (jsIsWordChar c = true ∧ ¬(65 ≤ c.toNat ∧ c.toNat ≤ 90)))
  ∧ List.Chain' (fun a b => ¬(jsIsSpace a = true ∧ jsIsSpace b = true)) l
  ∧ (∀ c, l.head? = some c → jsIsSpace c = false)
  ∧ (∀ c, l.getLast? = some c → jsIsSpace c = false)

/-! # Theorems

First the supporting lemmas about the text pipeline, then one theorem (plus
witness / counterexample where required) per specification claim. -/

/-! ## Character-class lemmas -/

theorem jsIsWordChar_iff (c : Char) :
    jsIsWordChar c = true ↔
      (97 ≤ c.toNat ∧ c.toNat ≤ 122) ∨ (65 ≤ c.toNat ∧ c.toNat ≤ 90)
      ∨ (48 ≤ c.toNat ∧ c.toNat ≤ 57) ∨ c.toNat = 95 := by
  simp [jsIsWordChar, Bool.or_eq_true, Bool.and_eq_true, decide_eq_true_eq,
    Nat.beq_eq_true_eq, or_assoc]

theorem jsIsSpace_iff (c : Char) :
    jsIsSpace c = true ↔
      c.toNat = 32 ∨ c.toNat = 9 ∨ c.toNat = 10 ∨ c.toNat = 11
      ∨ c.toNat = 12 ∨ c.toNat = 13 ∨ c.toNat = 160 ∨ c.toNat = 5760
      ∨ (8192 ≤ c.toNat ∧ c.toNat ≤ 8202) ∨ c.toNat = 8232
      ∨ c.toNat = 8233 ∨ c.toNat = 8239 ∨ c.toNat = 8287
      ∨ c.toNat = 12288 ∨ c.toNat = 65279 := by
  simp [jsIsSpace, Bool.or_eq_true, Bool.and_eq_true, decide_eq_true_eq,
    Nat.beq_eq_true_eq, or_assoc]

theorem wordChar_not_space {c : Char} (h : jsIsWordChar c = true) :
    jsIsSpace c = false := by
  rw [jsIsWordChar_iff] at h
  rw [Bool.eq_false_iff]
  intro hs
  rw [jsIsSpace_iff] at hs
  omega

theorem jsToLower_eq_self {c : Char}
    (h : ¬(65 ≤ c.toNat ∧ c.toNat ≤ 90)) : jsToLower c = c := by
  unfold jsToLower
  rw [if_neg]
  simp only [Bool.and_eq_true, decide_eq_true_eq]
  omega

theorem jsToLower_notUpper (c : Char) :
    ¬(65 ≤ (jsToLower c).toNat ∧ (jsToLower c).toNat ≤ 90) := by
  unfold jsToLower
  by_cases h : 65 ≤ c.toNat ∧ c.toNat ≤ 90
  · rw [if_pos (by simp only [Bool.and_eq_true, decide_eq_true_eq]; omega)]
    have hv : (Char.ofNat (c.toNat + 32)).toNat = c.toNat + 32 := by
      unfold Char.ofNat
      rw [dif_pos (Or.inl (by omega))]
      rfl
    rw [hv]
    omega
  · rw [if_neg (by simp only [Bool.and_eq_true, decide_eq_true_eq]; omega)]
    exact h

theorem space_char_toNat : (' ' : Char).toNat = 32 := rfl

theorem jsIsSpace_space : jsIsSpace ' ' = true := by decide

theorem not_upper_space : ¬(65 ≤ (' ' : Char).toNat ∧ (' ' : Char).toNat ≤ 90) := by
  decide

/-! ## Stage lemmas for `preprocessText`: membership -/

theorem map_id_of_mem {α : Type} {f : α → α} :
    ∀ l : List α, (∀ c ∈ l, f c = c) → l.map f = l := by
  intro l h
  induction l with
  | nil => rfl
  | cons x xs ih =>
      simp only [List.map_cons]
      rw [h x (List.mem_cons_self x xs), ih fun c hc => h c (List.mem_cons_of_mem x hc)]

theorem mem_stripTagsAux {c : Char} :
    ∀ (l : List Char) (buf : Option (List Char)), c ∈ stripTagsAux l buf →
      c ∈ l ∨ (∃ b, buf = some b ∧ c ∈ b) ∨ c = ' ' ∨ c = '<' := by
  intro l
  induction l with
  | nil =>
      intro buf h
      match buf with
      | none => simp [stripTagsAux] at h
      | some b =>
          simp only [stripTagsAux, List.mem_cons, List.mem_reverse] at h
          rcases h with h | h
          · exact Or.inr (Or.inr (Or.inr h))
          · exact Or.inr (Or.inl ⟨b, rfl, h⟩)
  | cons x xs ih =>
      intro buf h
      match buf with
      | none =>
          by_cases hx : x = '<'
          · simp only [stripTagsAux, if_pos hx] at h
            rcases ih (some []) h with h' | ⟨b, hb, hcb⟩ | h' | h'
            · exact Or.inl (List.mem_cons_of_mem x h')
            · simp at hb
              subst hb
              simp at hcb
            · exact Or.inr (Or.inr (Or.inl h'))
            · exact Or.inr (Or.inr (Or.inr h'))
          · simp only [stripTagsAux, if_neg hx, List.mem_cons] at h
            rcases h with h | h
            · exact Or.inl (h ▸ List.mem_cons_self x xs)
            · rcases ih none h with h' | ⟨b, hb, _⟩ | h' | h'
              · exact Or.inl (List.mem_cons_of_mem x h')
              · exact absurd hb (by simp)
              · exact Or.inr (Or.inr (Or.inl h'))
              · exact Or.inr (Or.inr (Or.inr h'))
      | some b =>
          by_cases hx : x = '>'
          · simp only [stripTagsAux, if_pos hx, List.mem_cons] at h
            rcases h with h | h
            · exact Or.inr (Or.inr (Or.inl h))
            · rcases ih none h with h' | ⟨b', hb, _⟩ | h' | h'
              · exact Or.inl (List.mem_cons_of_mem x h')
              · exact absurd hb (by simp)
              · exact Or.inr (Or.inr (Or.inl h'))
              · exact Or.inr (Or.inr (Or.inr h'))
          · simp only [stripTagsAux, if_neg hx] at h
            rcases ih (some (x :: b)) h with h' | ⟨b', hb, hcb⟩ | h' | h'
            · exact Or.inl (List.mem_cons_of_mem x h')
            · have hb' : x :: b = b' := Option.some.inj hb
              rw [← hb'] at hcb
              rcases List.mem_cons.mp hcb with hcx | hcb'
              · exact Or.inl (hcx ▸ List.mem_cons_self x xs)
              · exact Or.inr (Or.inl ⟨b, rfl, hcb'⟩)
            · exact Or.inr (Or.inr (Or.inl h'))
            · exact Or.inr (Or.inr (Or.inr h'))

theorem mem_stripTags {c : Char} {l : List Char} (h : c ∈ stripTags l) :
    c ∈ l ∨ c = ' ' ∨ c = '<' := by
  rcases mem_stripTagsAux l none h with h' | ⟨b, hb, _⟩ | h' | h'
  · exact Or.inl h'
  · exact absurd hb (by simp)
  · exact Or.inr (Or.inl h')
  · exact Or.inr (Or.inr h')

theorem mem_stripNonWord {c : Char} {l : List Char} (h : c ∈ stripNonWord l) :
    c = ' ' ∨ (c ∈ l ∧ (jsIsWordChar c || jsIsSpace c) = true) := by
  unfold stripNonWord at h
  rcases List.mem_map.mp h with ⟨d, hd, hdc⟩
  by_cases hw : (jsIsWordChar d || jsIsSpace d) = true
  · rw [if_pos hw] at hdc
    exact Or.inr ⟨hdc ▸ hd, hdc ▸ hw⟩
  · rw [if_neg hw] at hdc
    exact Or.inl hdc.symm

theorem mem_collapseWsAux {c : Char} :
    ∀ (b : Bool) (l : List Char), c ∈ collapseWsAux b l →
      c = ' ' ∨ (c ∈ l ∧ jsIsSpace c = false) := by
  intro b l
  induction l generalizing b with
  | nil => intro h; simp [collapseWsAux] at h
  | cons x xs ih =>
      intro h
      by_cases hx : jsIsSpace x = true
      · cases b with
        | true =>
            simp only [collapseWsAux, if_pos hx, if_pos rfl] at h
            rcases ih true h with h' | ⟨hm, hs⟩
            · exact Or.inl h'
            · exact Or.inr ⟨List.mem_cons_of_mem x hm, hs⟩
        | false =>
            rw [show collapseWsAux false (x :: xs)
                  = ' ' :: collapseWsAux true xs by
                simp [collapseWsAux, hx]] at h
            rcases List.mem_cons.mp h with h | h
            · exact Or.inl h
            · rcases ih true h with h' | ⟨hm, hs⟩
              · exact Or.inl h'
              · exact Or.inr ⟨List.mem_cons_of_mem x hm, hs⟩
      · simp only [collapseWsAux, if_neg hx, List.mem_cons] at h
        rcases h with h | h
        · exact Or.inr ⟨h ▸ List.mem_cons_self x xs,
            h ▸ Bool.eq_false_iff.mpr hx⟩
        · rcases ih false h with h' | ⟨hm, hs⟩
          · exact Or.inl h'
          · exact Or.inr ⟨List.mem_cons_of_mem x hm, hs⟩

/-! ## Stage lemmas for `preprocessText`: whitespace shape -/

theorem collapseWsAux_true_head {l : List Char} {c : Char}
    (h : (collapseWsAux true l).head? = some c) : jsIsSpace c = false := by
  induction l with
  | nil => simp [collapseWsAux] at h
  | cons x xs ih =>
      by_cases hx : jsIsSpace x = true
      · rw [show collapseWsAux true (x :: xs) = collapseWsAux true xs by
          simp [collapseWsAux, hx]] at h
        exact ih h
      · rw [show collapseWsAux true (x :: xs) = x :: collapseWsAux false xs by
          simp [collapseWsAux, hx]] at h
        simp only [List.head?_cons, Option.some.injEq] at h
        exact h ▸ Bool.eq_false_iff.mpr hx

theorem chain'_collapseWsAux :
    ∀ (b : Bool) (l : List Char),
      List.Chain' (fun a d => ¬(jsIsSpace a = true ∧ jsIsSpace d = true))
        (collapseWsAux b l) := by
  intro b l
  induction l generalizing b with
  | nil => simp [collapseWsAux]
  | cons x xs ih =>
      by_cases hx : jsIsSpace x = true
      · cases b with
        | true =>
            rw [show collapseWsAux true (x :: xs) = collapseWsAux true xs by
              simp [collapseWsAux, hx]]
            exact ih true
        | false =>
            rw [show collapseWsAux false (x :: xs)
                  = ' ' :: collapseWsAux true xs by simp [collapseWsAux, hx]]
            rw [List.chain'_cons']
            refine ⟨?_, ih true⟩
            intro y hy
            intro ⟨_, hys⟩
            rw [collapseWsAux_true_head hy] at hys
            exact Bool.false_ne_true hys
      · rw [show collapseWsAux b (x :: xs) = x :: collapseWsAux false xs by
          simp [collapseWsAux, hx]]
        rw [List.chain'_cons']
        refine ⟨?_, ih false⟩
        intro y _
        intro ⟨hxs, _⟩
        exact hx hxs

theorem head?_dropWhile {p : Char → Bool} :
    ∀ {l : List Char} {c : Char}, (List.dropWhile p l).head? = some c →
      p c = false := by
  intro l
  induction l with
  | nil => intro c h; simp [List.dropWhile] at h
  | cons x xs ih =>
      intro c h
      by_cases hx : p x = true
      · rw [List.dropWhile_cons_of_pos hx] at h
        exact ih h
      · rw [List.dropWhile_cons_of_neg hx] at h
        simp only [List.head?_cons, Option.some.injEq] at h
        exact h ▸ Bool.eq_false_iff.mpr hx

theorem dropWhile_append_eq {p : Char → Bool} :
    ∀ l : List Char, ∃ t, t ++ List.dropWhile p l = l := by
  intro l
  induction l with
  | nil => exact ⟨[], rfl⟩
  | cons x xs ih =>
      by_cases hx : p x = true
      · obtain ⟨t, ht⟩ := ih
        exact ⟨x :: t, by rw [List.dropWhile_cons_of_pos hx, List.cons_append, ht]⟩
      · exact ⟨[], by rw [List.dropWhile_cons_of_neg hx, List.nil_append]⟩

theorem jsTrim_head {l : List Char} {c : Char}
    (h : (jsTrim l).head? = some c) : jsIsSpace c = false := by
  unfold jsTrim at h
  obtain ⟨t, ht⟩ :=
    dropWhile_append_eq (p := jsIsSpace) (l.dropWhile jsIsSpace).reverse
  set k := ((l.dropWhile jsIsSpace).reverse.dropWhile jsIsSpace) with hk
  have hpre : ∃ u, k.reverse ++ u = l.dropWhile jsIsSpace := by
    refine ⟨t.reverse, ?_⟩
    have := congrArg List.reverse ht
    rw [List.reverse_append, List.reverse_reverse] at this
    exact this
  obtain ⟨u, hu⟩ := hpre
  match hkr : k.reverse with
  | [] => rw [hkr] at h; simp at h
  | d :: ds =>
      rw [hkr] at h
      simp only [List.head?_cons, Option.some.injEq] at h
      rw [← h]
      rw [hkr] at hu
      have hd : (l.dropWhile jsIsSpace).head? = some d := by
        rw [← hu]; rfl
      exact head?_dropWhile hd

theorem jsTrim_getLast {l : List Char} {c : Char}
    (h : (jsTrim l).getLast? = some c) : jsIsSpace c = false := by
  unfold jsTrim at h
  rw [List.getLast?_eq_head?_reverse, List.reverse_reverse] at h
  exact head?_dropWhile h

theorem mem_jsTrim {l : List Char} {c : Char} (h : c ∈ jsTrim l) : c ∈ l := by
  unfold jsTrim at h
  rw [List.mem_reverse] at h
  have h1 := List.Sublist.mem h (List.dropWhile_sublist jsIsSpace)
  rw [List.mem_reverse] at h1
  exact List.Sublist.mem h1 (List.dropWhile_sublist jsIsSpace)

theorem chain'_dropWhile {R : Char → Char → Prop} {p : Char → Bool} :
    ∀ {l : List Char}, List.Chain' R l → List.Chain' R (List.dropWhile p l) := by
  intro l h
  induction l with
  | nil => simp
  | cons x xs ih =>
      by_cases hx : p x = true
      · rw [List.dropWhile_cons_of_pos hx]
        exact ih (List.Chain'.tail h)
      · rw [List.dropWhile_cons_of_neg hx]
        exact h

theorem chain'_reverse_symm
    {l : List Char}
    (h : List.Chain' (fun a d => ¬(jsIsSpace a = true ∧ jsIsSpace d = true)) l) :
    List.Chain' (fun a d => ¬(jsIsSpace a = true ∧ jsIsSpace d = true))
      l.reverse := by
  rw [List.chain'_reverse]
  exact List.Chain'.imp (fun a d hba => fun ⟨h1, h2⟩ => hba ⟨h2, h1⟩) h

theorem chain'_jsTrim {l : List Char}
    (h : List.Chain' (fun a d => ¬(jsIsSpace a = true ∧ jsIsSpace d = true)) l) :
    List.Chain' (fun a d => ¬(jsIsSpace a = true ∧ jsIsSpace d = true))
      (jsTrim l) := by
  unfold jsTrim
  exact chain'_reverse_symm (chain'_dropWhile (chain'_reverse_symm
    (chain'_dropWhile h)))

/-! ## The canonical form of `preprocessText` output -/

theorem notUpper_of_stripTags_toLower {l : List Char} {c : Char}
    (h : c ∈ stripTags (l.map jsToLower)) :
    ¬(65 ≤ c.toNat ∧ c.toNat ≤ 90) := by
  rcases mem_stripTags h with h' | h' | h'
  · rcases List.mem_map.mp h' with ⟨d, _, hd⟩
    exact hd ▸ jsToLower_notUpper d
  · rw [h']; decide
  · rw [h']; decide

theorem preprocess_members {s : String} {c : Char}
    (h : c ∈ (preprocessText s).data) :
    c = ' ' ∨ (jsIsWordChar c = true ∧ ¬(65 ≤ c.toNat ∧ c.toNat ≤ 90)) := by
  unfold preprocessText at h
  by_cases hs : s = ""
  · rw [if_pos hs] at h
    simp at h
  · rw [if_neg hs] at h
    have h1 : c ∈ collapseWs (stripNonWord (stripTags (s.data.map jsToLower))) :=
      mem_jsTrim h
    rcases mem_collapseWsAux false _ h1 with h2 | ⟨h2, hcs⟩
    · exact Or.inl h2
    · rcases mem_stripNonWord h2 with h3 | ⟨h3, hws⟩
      · exact Or.inl h3
      · refine Or.inr ⟨?_, notUpper_of_stripTags_toLower h3⟩
        rcases Bool.or_eq_true _ _ |>.mp hws with hw | hsp
        · exact hw
        · rw [hcs] at hsp
          exact absurd hsp Bool.false_ne_true

theorem preprocess_canonical (s : String) :
    CanonicalText (preprocessText s).data := by
  unfold CanonicalText
  by_cases hs : s = ""
  · refine ⟨?_, ?_, ?_, ?_⟩ <;> simp [preprocessText, hs]
  · refine ⟨fun c hc => preprocess_members hc, ?_, ?_, ?_⟩
    · show List.Chain' _ (preprocessText s).data
      unfold preprocessText
      rw [if_neg hs]
      exact chain'_jsTrim (chain'_collapseWsAux false _)
    · intro c hc
      unfold preprocessText at hc
      rw [if_neg hs] at hc
      exact jsTrim_head hc
    · intro c hc
      unfold preprocessText at hc
      rw [if_neg hs] at hc
      exact jsTrim_getLast hc

/-! ## The identity direction: the pipeline fixes canonical text -/

theorem stripTagsAux_id {l : List Char} (h : '<' ∉ l) :
    stripTagsAux l none = l := by
  induction l with
  | nil => rfl
  | cons x xs ih =>
      have hx : x ≠ '<' := fun hc => h (hc ▸ List.mem_cons_self x xs)
      rw [show stripTagsAux (x :: xs) none = x :: stripTagsAux xs none by
        simp [stripTagsAux, hx]]
      rw [ih fun hc => h (List.mem_cons_of_mem x hc)]

theorem stripNonWord_id {l : List Char}
    (h : ∀ c ∈ l, (jsIsWordChar c || jsIsSpace c) = true) :
    stripNonWord l = l := by
  unfold stripNonWord
  refine map_id_of_mem l fun c hc => ?_
  rw [if_pos (h c hc)]

theorem collapseWsAux_id {l : List Char}
    (hsp : ∀ c ∈ l, jsIsSpace c = true → c = ' ')
    (hch : List.Chain' (fun a d => ¬(jsIsSpace a = true ∧ jsIsSpace d = true)) l) :
    collapseWsAux false l = l ∧
      ((∀ c, l.head? = some c → jsIsSpace c = false) →
        collapseWsAux true l = l) := by
  induction l with
  | nil => exact ⟨rfl, fun _ => rfl⟩
  | cons x xs ih =>
      have hsp' : ∀ c ∈ xs, jsIsSpace c = true → c = ' ' :=
        fun c hc => hsp c (List.mem_cons_of_mem x hc)
      have hch' := List.Chain'.tail hch
      obtain ⟨ihF, ihT⟩ := ih hsp' hch'
      by_cases hx : jsIsSpace x = true
      · have hx' : x = ' ' := hsp x (List.mem_cons_self x xs) hx
        have hrest : collapseWsAux true xs = xs := by
          refine ihT fun c hc => ?_
          match xs, hc with
          | y :: ys, hc =>
              have hr := (List.chain'_cons'.mp hch).1 y (by simp)
              simp only [List.head?_cons, Option.some.injEq] at hc
              by_cases hy : jsIsSpace y = true
              · exact absurd ⟨hx, hc ▸ hy⟩ hr
              · exact hc ▸ Bool.eq_false_iff.mpr hy
        constructor
        · rw [show collapseWsAux false (x :: xs) = ' ' :: collapseWsAux true xs
            by simp [collapseWsAux, hx]]
          rw [hrest, hx']
        · intro hhd
          have := hhd x rfl
          rw [hx] at this
          simp at this
      · have hstep : ∀ b, collapseWsAux b (x :: xs) = x :: collapseWsAux false xs :=
          fun b => by simp [collapseWsAux, hx]
        constructor
        · rw [hstep false, ihF]
        · intro _
          rw [hstep true, ihF]

theorem dropWhile_eq_self {p : Char → Bool} {l : List Char}
    (h : ∀ c, l.head? = some c → p c = false) : List.dropWhile p l = l := by
  match l with
  | [] => rfl
  | x :: xs =>
      have := h x rfl
      rw [List.dropWhile_cons_of_neg (by rw [this]; exact Bool.false_ne_true)]

theorem jsTrim_id {l : List Char}
    (h1 : ∀ c, l.head? = some c → jsIsSpace c = false)
    (h2 : ∀ c, l.getLast? = some c → jsIsSpace c = false) : jsTrim l = l := by
  unfold jsTrim
  rw [dropWhile_eq_self h1]
  rw [dropWhile_eq_self fun c hc => h2 c (by
    rw [List.getLast?_eq_head?_reverse]; exact hc)]
  exact List.reverse_reverse l

theorem pipeline_id_of_canonical {l : List Char} (h : CanonicalText l) :
    jsTrim (collapseWs (stripNonWord (stripTags (l.map jsToLower)))) = l := by
  obtain ⟨hmem, hch, hh, hl⟩ := h
  have hlow : l.map jsToLower = l := by
    refine map_id_of_mem l fun c hc => ?_
    rcases hmem c hc with h' | ⟨_, h'⟩
    · rw [h']
      exact jsToLower_eq_self not_upper_space
    · exact jsToLower_eq_self h'
  rw [hlow]
  have hnolt : '<' ∉ l := by
    intro hc
    rcases hmem '<' hc with h' | ⟨h', _⟩
    · exact absurd h' (by decide)
    · rw [show jsIsWordChar '<' = false by decide] at h'
      exact Bool.false_ne_true h'
  rw [show stripTags l = l from stripTagsAux_id hnolt]
  rw [stripNonWord_id fun c hc => by
    rcases hmem c hc with h' | ⟨h', _⟩
    · rw [h', Bool.or_eq_true]
      exact Or.inr jsIsSpace_space
    · rw [Bool.or_eq_true]
      exact Or.inl h']
  have hsp : ∀ c ∈ l, jsIsSpace c = true → c = ' ' := by
    intro c hc hcs
    rcases hmem c hc with h' | ⟨h', _⟩
    · exact h'
    · rw [wordChar_not_space h'] at hcs
      exact absurd hcs Bool.false_ne_true
  rw [show collapseWs l = l from (collapseWsAux_id hsp hch).1]
  exact jsTrim_id hh hl

/-- C6: `preprocessText` is idempotent: applying it to its own output (a
lowercased, tag-free, word/space-only, whitespace-collapsed, trimmed
string) returns that output unchanged. -/
theorem preprocessText_idempotent (x : String) :
    preprocessText (preprocessText x) = preprocessText x := by
  by_cases hr : preprocessText x = ""
  · rw [hr]
    rfl
  · conv_lhs => rw [preprocessText]
    rw [if_neg hr]
    rw [pipeline_id_of_canonical (preprocess_canonical x)]

/-! ## Claim C3: the `extractKeywords` example -/

/-- C3 counterexample: `extractKeywords "the the the cat cat dog" 2` does
not contain "cat" and "dog" — the length ≤ 3 filter of `filterTokens`
removes them along with "the". -/
theorem extractKeywords_example_counterexample :
    ¬("cat" ∈ extractKeywords "the the the cat cat dog" 2
      ∧ "dog" ∈ extractKeywords "the the the cat cat dog" 2) := by
  decide

/-- C3 amended: `extractKeywords "the the the cat cat dog" 2` returns the
empty list: "the" is a stop word and, like "cat" and "dog", has length ≤ 3,
so every token is removed by `filterTokens` and no keyword remains. -/
theorem extractKeywords_example_empty :
    extractKeywords "the the the cat cat dog" 2 = [] := by
  decide

/-! ## Claim C7: cosine similarity on self and on the zero vector -/

theorem foldl_add_sq (v : List ℝ) : ∀ init : ℝ,
    v.foldl (fun sum a => sum + a * a) init
      = init + (v.map fun a => a * a).sum := by
  induction v with
  | nil => intro init; simp
  | cons x xs ih =>
      intro init
      rw [List.foldl_cons, ih, List.map_cons, List.sum_cons]
      ring

theorem foldl_zip_self (v : List ℝ) : ∀ init : ℝ,
    (v.zip v).foldl (fun sum p => sum + p.1 * p.2) init
      = init + (v.map fun a => a * a).sum := by
  induction v with
  | nil => intro init; simp
  | cons x xs ih =>
      intro init
      rw [List.zip_cons_cons, List.foldl_cons, ih, List.map_cons,
        List.sum_cons]
      ring

theorem all_zero_eq_replicate : ∀ {v : List ℝ}, (∀ x ∈ v, x = 0) →
    v = List.replicate v.length 0 := by
  intro v
  induction v with
  | nil => intro _; rfl
  | cons x xs ih =>
      intro h
      rw [List.length_cons, List.replicate_succ]
      rw [h x (List.mem_cons_self x xs)]
      rw [← ih fun c hc => h c (List.mem_cons_of_mem x hc)]

theorem foldl_sq_replicate (n : Nat) : ∀ init : ℝ,
    (List.replicate n (0:ℝ)).foldl (fun sum b => sum + b * b) init = init := by
  induction n with
  | zero => intro init; rfl
  | succ m ih =>
      intro init
      rw [List.replicate_succ, List.foldl_cons,
        show init + (0:ℝ) * 0 = init by ring]
      exact ih init

/-- C7: `calculateCosineSimilarity v v = 1` for every vector `v` that is
not the zero vector, and `calculateCosineSimilarity v z = 0` for every
vector `v`, where `z` is the zero vector of the same length. -/
theorem cosineSimilarity_self_and_zero :
    (∀ v : List ℝ, v ≠ List.replicate v.length 0 →
      calculateCosineSimilarity v v = 1) ∧
    (∀ v : List ℝ,
      calculateCosineSimilarity v (List.replicate v.length 0) = 0) := by
  constructor
  · intro v hv
    have hne : v ≠ [] := by
      intro h
      exact hv (by rw [h]; rfl)
    have hex : ∃ x ∈ v, x ≠ 0 := by
      by_contra hall
      push_neg at hall
      exact hv (all_zero_eq_replicate hall)
    obtain ⟨x, hxm, hx0⟩ := hex
    have hS : 0 < (v.map fun a => a * a).sum := by
      have hxx : 0 < x * x := mul_self_pos.mpr hx0
      have hmem : x * x ∈ v.map fun a => a * a :=
        List.mem_map.mpr ⟨x, hxm, rfl⟩
      have hnn : ∀ y ∈ v.map fun a => a * a, (0:ℝ) ≤ y := by
        intro y hy
        rcases List.mem_map.mp hy with ⟨a, _, ha⟩
        exact ha ▸ mul_self_nonneg a
      exact lt_of_lt_of_le hxx (List.single_le_sum hnn _ hmem)
    have hcond : ¬(v.length = 0 ∨ v.length = 0 ∨ v.length ≠ v.length) := by
      simp [List.length_eq_zero, hne]
    simp only [calculateCosineSimilarity]
    rw [if_neg hcond]
    rw [foldl_zip_self v 0, foldl_add_sq v 0, zero_add]
    have hsqrt : Real.sqrt ((v.map fun a => a * a).sum) ≠ 0 :=
      ne_of_gt (Real.sqrt_pos.mpr hS)
    rw [if_neg (by
      intro hc
      rcases hc with hc | hc <;> exact hsqrt hc)]
    rw [Real.mul_self_sqrt hS.le]
    exact div_self (ne_of_gt hS)
  · intro v
    match hv : v with
    | [] => rfl
    | x :: xs =>
        have hcond : ¬((x :: xs).length = 0
            ∨ (List.replicate (x :: xs).length (0:ℝ)).length = 0
            ∨ (x :: xs).length ≠ (List.replicate (x :: xs).length (0:ℝ)).length) := by
          simp
        simp only [calculateCosineSimilarity]
        rw [if_neg hcond]
        rw [if_pos (Or.inr (by
          rw [foldl_sq_replicate _ 0]
          exact Real.sqrt_zero))]

/-- Witness for C7: the vector `[1]` is not the zero vector and has cosine
similarity 1 with itself and 0 with `[0]`. -/
theorem cosineSimilarity_self_and_zero_witness :
    calculateCosineSimilarity [(1:ℝ)] [(1:ℝ)] = 1 ∧
      calculateCosineSimilarity [(1:ℝ)] (List.replicate [(1:ℝ)].length 0) = 0 :=
  ⟨cosineSimilarity_self_and_zero.1 [(1:ℝ)] (by simp),
   cosineSimilarity_self_and_zero.2 [(1:ℝ)]⟩

/-! ## Claim C8: topic similarity -/

theorem mapInsert_of_not_mem {m : List (String × ℝ)} {k : String} {v : ℝ}
    (h : k ∉ m.map Prod.fst) : mapInsert m k v = m ++ [(k, v)] := by
  induction m with
  | nil => rfl
  | cons p rest ih =>
      have hp : p.1 ≠ k := by
        intro hc
        exact h (List.mem_map.mpr ⟨p, List.mem_cons_self p rest, hc⟩)
      rw [show mapInsert (p :: rest) k v = p :: mapInsert rest k v by
        simp [mapInsert, hp]]
      rw [ih fun hc => h (List.mem_cons_of_mem _ hc), List.cons_append]

theorem foldl_mapInsert_disjoint :
    ∀ (ts : List Topic) (m : List (String × ℝ)),
      (ts.map Topic.term).Nodup →
      (∀ t ∈ ts, t.term ∉ m.map Prod.fst) →
      ts.foldl (fun acc t => mapInsert acc t.term t.score) m
        = m ++ ts.map fun t => (t.term, t.score) := by
  intro ts
  induction ts with
  | nil => intro m _ _; simp
  | cons t rest ih =>
      intro m hnd hdis
      rw [List.foldl_cons]
      rw [mapInsert_of_not_mem (hdis t (List.mem_cons_self t rest))]
      rw [List.map_cons] at hnd
      have hnd' := List.Nodup.of_cons hnd
      have ht := List.nodup_cons.mp hnd |>.1
      rw [ih (m ++ [(t.term, t.score)]) hnd' fun u hu => by
        rw [List.map_append, List.mem_append]
        intro hc
        rcases hc with hc | hc
        · exact hdis u (List.mem_cons_of_mem t hu) hc
        · simp only [List.map_cons, List.map_nil, List.mem_singleton] at hc
          exact ht (hc ▸ List.mem_map.mpr ⟨u, hu, rfl⟩)]
      rw [List.map_cons, List.append_assoc]
      rfl

theorem topicMap_eq_of_nodup {ts : List Topic}
    (h : (ts.map Topic.term).Nodup) :
    topicMap ts = ts.map fun t => (t.term, t.score) := by
  unfold topicMap
  rw [foldl_mapInsert_disjoint ts [] h fun t _ => by simp]
  rfl

theorem topicFold_eq (mB : List (String × ℝ)) :
    ∀ (m : List (String × ℝ)) (acc : ℝ × ℝ),
      (m.foldl
        (fun (acc : ℝ × ℝ) p =>
          (acc.1 + (match mapLookup mB p.1 with
                    | some sB => min p.2 sB
                    | none => 0),
           acc.2 + p.2))
        acc)
      = (acc.1 + (m.map fun p => (match mapLookup mB p.1 with
                    | some sB => min p.2 sB
                    | none => 0)).sum,
         acc.2 + (m.map fun p => p.2).sum) := by
  intro m
  induction m with
  | nil => intro acc; simp
  | cons p rest ih =>
      intro acc
      rw [List.foldl_cons, ih, List.map_cons, List.sum_cons, List.map_cons,
        List.sum_cons]
      simp only [Prod.mk.injEq]
      constructor <;> ring

/-- C8 counterexample: on topic lists with negative scores the claimed
formula fails: for `A = B = [{term: "a", score: -1}]` the code returns 0
(the `totalPossibleScore > 0` guard), while the claimed quotient is
`min(-1,-1) / (-1) = 1`. -/
theorem topicSimilarity_claim_counterexample :
    calculateTopicSimilarity [⟨"a", -1⟩] [⟨"a", -1⟩] = 0 ∧
      topicSimilaritySpec [⟨"a", -1⟩] [⟨"a", -1⟩] = 1 := by
  constructor
  · simp only [calculateTopicSimilarity]
    rw [if_neg (by simp)]
    simp only [topicMap, List.foldl_cons, List.foldl_nil, mapInsert,
      mapLookup]
    rw [if_neg (by norm_num)]
  · simp only [topicSimilaritySpec]
    rw [if_neg (by simp)]
    simp only [topicMap, List.foldl_cons, List.foldl_nil, mapInsert,
      mapLookup, List.map_cons, List.map_nil, List.sum_cons, List.sum_nil]
    norm_num

/-- C8 amended: `calculateTopicSimilarity` returns 0 when either topic list
is empty; on lists whose terms are duplicate-free and whose scores are
non-negative (as TF-IDF topic lists are) it returns the sum over A's terms
present in B of the minimum of the two scores, divided by the sum of all of
A's scores; and it is not symmetric in general. -/
theorem topicSimilarity_spec_correct :
    (∀ B, calculateTopicSimilarity [] B = 0) ∧
    (∀ A, calculateTopicSimilarity A [] = 0) ∧
    (∀ A B : List Topic, (A.map Topic.term).Nodup →
      (∀ t ∈ A, 0 ≤ t.score) →
      calculateTopicSimilarity A B = topicSimilaritySpec A B) ∧
    (∃ A B, calculateTopicSimilarity A B ≠ calculateTopicSimilarity B A) := by
  refine ⟨?_, ?_, ?_, ?_⟩
  · intro B
    simp [calculateTopicSimilarity]
  · intro A
    simp [calculateTopicSimilarity]
  · intro A B hnd hnn
    match hA : A, hB : B with
    | [], _ => simp [calculateTopicSimilarity, topicSimilaritySpec]
    | _ :: _, [] => simp [calculateTopicSimilarity, topicSimilaritySpec]
    | a :: as, b :: bs =>
        simp only [calculateTopicSimilarity, topicSimilaritySpec]
        have hg : ¬((a :: as).length = 0 ∨ (b :: bs).length = 0) := by simp
        rw [if_neg hg, if_neg hg]
        rw [topicMap_eq_of_nodup hnd]
        rw [topicFold_eq (topicMap (b :: bs)) _ (0, 0)]
        simp only [zero_add, List.map_map]
        have hmapmin :
            (List.map ((fun p => match mapLookup (topicMap (b :: bs)) p.1 with
                | some sB => min p.2 sB
                | none => 0) ∘ fun t => (t.term, t.score)) (a :: as))
              = List.map (fun t => match mapLookup (topicMap (b :: bs)) t.term with
                | some sB => min t.score sB
                | none => 0) (a :: as) := by
          refine List.map_congr_left fun t _ => ?_
          rfl
        have hmapsc :
            (List.map ((fun p => p.2) ∘ fun t => (t.term, t.score)) (a :: as))
              = List.map Topic.score (a :: as) := by
          refine List.map_congr_left fun t _ => ?_
          rfl
        rw [hmapmin, hmapsc]
        by_cases hpos :
            0 < (List.map Topic.score (a :: as)).sum
        · rw [if_pos hpos]
        · rw [if_neg hpos]
          have hz : (List.map Topic.score (a :: as)).sum = 0 := by
            have hge : 0 ≤ (List.map Topic.score (a :: as)).sum := by
              refine List.sum_nonneg fun y hy => ?_
              rcases List.mem_map.mp hy with ⟨t, ht, hty⟩
              exact hty ▸ hnn t ht
            exact le_antisymm (not_lt.mp hpos) hge
          rw [hz, div_zero]
  · refine ⟨[⟨"a", 1⟩, ⟨"b", 1⟩], [⟨"a", 1⟩], ?_⟩
    have h1 : calculateTopicSimilarity [⟨"a", 1⟩, ⟨"b", 1⟩] [⟨"a", 1⟩]
        = 1 / 2 := by
      simp only [calculateTopicSimilarity]
      rw [if_neg (by simp)]
      simp [topicMap, mapInsert, mapLookup]
      norm_num
    have h2 : calculateTopicSimilarity [⟨"a", 1⟩] [⟨"a", 1⟩, ⟨"b", 1⟩]
        = 1 := by
      simp only [calculateTopicSimilarity]
      rw [if_neg (by simp)]
      simp [topicMap, mapInsert, mapLookup]
    rw [h1, h2]
    norm_num

/-- Witness for C8 amended: a concrete duplicate-free, non-negative pair on
which the code equals the claimed quotient. -/
theorem topicSimilarity_spec_correct_witness :
    calculateTopicSimilarity [⟨"a", 1⟩] [⟨"a", 2⟩]
      = topicSimilaritySpec [⟨"a", 1⟩] [⟨"a", 2⟩] :=
  topicSimilarity_spec_correct.2.2.1 [⟨"a", 1⟩] [⟨"a", 2⟩]
    (by simp) (by
      intro t ht
      simp only [List.mem_singleton] at ht
      rw [ht]
      norm_num)

/-! ## Claim C5: candidate deduplication and favorite exclusion -/

theorem contains_false_iff {l : List String} {x : String} :
    l.contains x = false ↔ x ∉ l := by
  rw [show l.contains x = l.elem x from rfl]
  constructor
  · intro h hc
    rw [List.elem_iff.mpr hc] at h
    exact Bool.false_ne_true h.symm
  · intro h
    rw [Bool.eq_false_iff]
    intro hc
    exact h (List.elem_iff.mp hc)

theorem dedupeCandidatesAux_spec :
    ∀ (l : List Podcast) (favoriteIds seenIds : List String),
      ((dedupeCandidatesAux favoriteIds seenIds l).map Podcast.id).Nodup ∧
      (∀ p ∈ dedupeCandidatesAux favoriteIds seenIds l, p.id ∉ favoriteIds) ∧
      (∀ p ∈ dedupeCandidatesAux favoriteIds seenIds l, p.id ∉ seenIds) := by
  intro l
  induction l with
  | nil =>
      intro favoriteIds seenIds
      exact ⟨List.nodup_nil, by simp [dedupeCandidatesAux],
        by simp [dedupeCandidatesAux]⟩
  | cons podcast rest ih =>
      intro favoriteIds seenIds
      by_cases hc : (!(seenIds.contains podcast.id)
          && !(favoriteIds.contains podcast.id)) = true
      · obtain ⟨h1, h2⟩ := Bool.and_eq_true _ _ |>.mp hc
        rw [Bool.not_eq_true'] at h1 h2
        have hseen := contains_false_iff.mp h1
        have hfav := contains_false_iff.mp h2
        rw [show dedupeCandidatesAux favoriteIds seenIds (podcast :: rest)
              = podcast ::
                dedupeCandidatesAux favoriteIds (podcast.id :: seenIds) rest by
          simp only [dedupeCandidatesAux]
          rw [if_pos hc]]
        obtain ⟨ihn, ihf, ihs⟩ := ih favoriteIds (podcast.id :: seenIds)
        refine ⟨?_, ?_, ?_⟩
        · rw [List.map_cons, List.nodup_cons]
          refine ⟨?_, ihn⟩
          intro hmem
          rcases List.mem_map.mp hmem with ⟨q, hq, hqid⟩
          exact ihs q hq (hqid ▸ List.mem_cons_self _ _)
        · intro p hp
          rcases List.mem_cons.mp hp with hp | hp
          · exact hp ▸ hfav
          · exact ihf p hp
        · intro p hp
          rcases List.mem_cons.mp hp with hp | hp
          · exact hp ▸ hseen
          · exact fun hm => ihs p hp (List.mem_cons_of_mem _ hm)
      · rw [show dedupeCandidatesAux favoriteIds seenIds (podcast :: rest)
              = dedupeCandidatesAux favoriteIds seenIds rest by
          simp only [dedupeCandidatesAux]
          rw [if_neg hc]]
        exact ih favoriteIds seenIds

/-- C5: `getCandidatePodcasts` never returns two entries with the same id
and never returns an entry whose id is a favorite's id, whatever podcasts
the catalog fetches accumulated. -/
theorem getCandidatePodcasts_nodup_excluded
    (favoritePodcasts candidates : List Podcast) :
    ((getCandidatePodcasts favoritePodcasts candidates).map Podcast.id).Nodup
    ∧ ∀ p ∈ getCandidatePodcasts favoritePodcasts candidates,
        p.id ∉ favoritePodcasts.map Podcast.id := by
  unfold getCandidatePodcasts
  by_cases h : favoritePodcasts = []
  · rw [if_pos h]
    exact ⟨List.nodup_nil, by simp⟩
  · rw [if_neg h]
    obtain ⟨h1, h2, _⟩ :=
      dedupeCandidatesAux_spec candidates (favoritePodcasts.map Podcast.id) []
    exact ⟨h1, h2⟩

/-! ## Claim C9: empty inputs give the empty output -/

/-- C9: `generateRecommendations` on an empty favorites list or an empty
candidates list returns `[]` (the JavaScript guard `!favorites?.length ||
!candidates?.length` treats a missing list exactly like an empty one, and
the embedded function is total, so no exception is possible). -/
theorem generateRecommendations_empty_inputs :
    (∀ (ef : String → List ℝ) (tf : String → Nat → List Topic) candidates,
      generateRecommendations ef tf [] candidates = []) ∧
    (∀ (ef : String → List ℝ) (tf : String → Nat → List Topic) favorites,
      generateRecommendations ef tf favorites [] = []) := by
  constructor
  · intro ef tf candidates
    simp [generateRecommendations]
  · intro ef tf favorites
    simp [generateRecommendations]

/-! ## The ranker: best-pairing analysis (claims C2, C10, C1) -/

theorem bestFold_cons (e x : SimEntry) (xs : List SimEntry) :
    bestFold e (x :: xs)
      = bestFold (if x.score > e.score then x else e) xs := rfl

theorem bestFold_decomp :
    ∀ (l : List SimEntry) (e : SimEntry),
      ∃ pre post, e :: l = pre ++ bestFold e l :: post ∧
        (∀ q ∈ pre, q.score < (bestFold e l).score) ∧
        (∀ q ∈ post, q.score ≤ (bestFold e l).score) := by
  intro l
  induction l with
  | nil =>
      intro e
      exact ⟨[], [], rfl, by simp, by simp⟩
  | cons x xs ih =>
      intro e
      rw [bestFold_cons]
      by_cases hx : x.score > e.score
      · rw [if_pos hx]
        obtain ⟨pre, post, heq, hpre, hpost⟩ := ih x
        refine ⟨e :: pre, post, by rw [List.cons_append, ← heq], ?_, hpost⟩
        intro q hq
        rcases List.mem_cons.mp hq with hq | hq
        · subst hq
          match pre, heq with
          | [], heq =>
              have hxm : x = bestFold x xs := by
                simpa using congrArg (fun t => t.head?) heq
              calc q.score < x.score := hx
                _ ≤ (bestFold x xs).score := by rw [← hxm]
          | p :: pre', heq =>
              have hpx : x = p := by
                simpa using congrArg (fun t => t.head?) heq
              have hps : p.score < (bestFold x xs).score :=
                hpre p (List.mem_cons_self p pre')
              rw [← hpx] at hps
              exact lt_trans hx hps
        · exact hpre q hq
      · rw [if_neg hx]
        obtain ⟨pre, post, heq, hpre, hpost⟩ := ih e
        match pre, heq with
        | [], heq =>
            have hme : bestFold e xs = e := by
              have := congrArg (fun t => t.head?) heq
              simpa using this.symm
            have hxs : xs = post := by
              simpa using congrArg (fun t => t.tail) heq
            refine ⟨[], x :: xs, by simp [hme], by simp, ?_⟩
            intro q hq
            rcases List.mem_cons.mp hq with hq | hq
            · subst hq
              rw [hme]
              exact le_of_not_lt hx
            · rw [hxs] at hq
              exact hpost q hq
        | p :: pre', heq =>
            have hpe : e = p := by
              simpa using congrArg (fun t => t.head?) heq
            have hxs : xs = pre' ++ bestFold e xs :: post := by
              simpa using congrArg (fun t => t.tail) heq
            refine ⟨e :: x :: pre', post, ?_, ?_, hpost⟩
            · rw [List.cons_append, List.cons_append, ← hxs]
            · intro q hq
              have hes : e.score < (bestFold e xs).score :=
                hpe ▸ hpre p (List.mem_cons_self p pre')
              rcases List.mem_cons.mp hq with hq | hq
              · exact hq ▸ hes
              · rcases List.mem_cons.mp hq with hq | hq
                · subst hq
                  exact lt_of_le_of_lt (le_of_not_lt hx) hes
                · exact hpre q (List.mem_cons_of_mem p hq)

theorem bestEntry_decomp (s : SimEntry) (rest : List SimEntry) :
    ∃ m pre post, bestEntry (s :: rest) = some m ∧
      s :: rest = pre ++ m :: post ∧
      (∀ q ∈ pre, q.score < m.score) ∧
      (∀ q ∈ post, q.score ≤ m.score) := by
  obtain ⟨pre, post, heq, hpre, hpost⟩ := bestFold_decomp (s :: rest) s
  match pre, heq with
  | [], heq =>
      have hms : bestFold s (s :: rest) = s := by
        simpa using (congrArg (fun t => t.head?) heq).symm
      have hpost' : s :: rest = post := by
        simpa using congrArg List.tail heq
      refine ⟨bestFold s (s :: rest), [], rest, rfl, by simp [hms], by simp,
        ?_⟩
      intro q hq
      exact hpost q (by rw [← hpost']; exact List.mem_cons_of_mem s hq)
  | p :: pre', heq =>
      have htail : s :: rest = pre' ++ bestFold s (s :: rest) :: post := by
        simpa using congrArg List.tail heq
      refine ⟨bestFold s (s :: rest), pre', post, rfl, htail, ?_, hpost⟩
      exact fun q hq => hpre q (List.mem_cons_of_mem p hq)

theorem bestEntry_of_ne_nil {l : List SimEntry} (h : l ≠ []) :
    ∃ m pre post, bestEntry l = some m ∧ l = pre ++ m :: post ∧
      (∀ q ∈ pre, q.score < m.score) ∧
      (∀ q ∈ post, q.score ≤ m.score) := by
  match l, h with
  | s :: rest, _ => exact bestEntry_decomp s rest

theorem similarities_ne_nil (ef : String → List ℝ)
    (tf : String → Nat → List Topic) {favs : List Podcast} (h : favs ≠ [])
    (cand : Podcast) : similarities ef tf favs cand ≠ [] := by
  unfold similarities
  intro hc
  exact h (List.map_eq_nil_iff.mp hc)

theorem foldl_add_score (l : List SimEntry) : ∀ init : ℝ,
    l.foldl (fun sum item => sum + item.score) init
      = init + (l.map SimEntry.score).sum := by
  induction l with
  | nil => intro init; simp
  | cons x xs ih =>
      intro init
      rw [List.foldl_cons, ih, List.map_cons, List.sum_cons]
      ring

theorem scoreCandidate_eq (ef : String → List ℝ)
    (tf : String → Nat → List Topic) (favs : List Podcast) (cand : Podcast)
    (m : SimEntry) (hm : bestEntry (similarities ef tf favs cand) = some m) :
    scoreCandidate ef tf favs cand =
      { podcast := cand,
        similarityScore :=
          ((similarities ef tf favs cand).map SimEntry.score).sum
            / ((similarities ef tf favs cand).length : ℝ),
        mostSimilarPodcastId := m.favoriteId,
        mostSimilarPodcast := m.favoritePodcast,
        semanticScore := m.semanticScore,
        topicScore := m.topicScore,
        matchScore := m.score } := by
  simp only [scoreCandidate, hm]
  rw [foldl_add_score _ 0, zero_add]

/-- C2: in `rankCandidates`, every (favorite, candidate) pairing's combined
score is `semanticScore * 0.7 + topicScore * 1.5 * 0.3`
(`TOPIC_MATCH = 1.5`); the aggregate `similarityScore` used for the sort is
the arithmetic mean of the combined scores over all favorites; and the
reported semantic/topic/match scores are those of a pairing attaining the
maximal combined score. -/
theorem rankCandidates_scoring (ef : String → List ℝ)
    (tf : String → Nat → List Topic) (favs cands : List Podcast)
    (hf : favs ≠ []) (hc : cands ≠ []) :
    (∀ cand : Podcast, ∀ e ∈ similarities ef tf favs cand,
      e.score = e.semanticScore * 0.7 + e.topicScore * 1.5 * 0.3) ∧
    (∀ cand : Podcast,
      (scoreCandidate ef tf favs cand).similarityScore
        = ((similarities ef tf favs cand).map SimEntry.score).sum
          / ((similarities ef tf favs cand).length : ℝ)) ∧
    (∀ cand : Podcast, ∃ e ∈ similarities ef tf favs cand,
      (∀ q ∈ similarities ef tf favs cand, q.score ≤ e.score) ∧
      (scoreCandidate ef tf favs cand).semanticScore = e.semanticScore ∧
      (scoreCandidate ef tf favs cand).topicScore = e.topicScore ∧
      (scoreCandidate ef tf favs cand).matchScore = e.score ∧
      (scoreCandidate ef tf favs cand).mostSimilarPodcastId = e.favoriteId) ∧
    rankCandidates ef tf favs cands
      = sortBySimilarityDesc (cands.map (scoreCandidate ef tf favs)) := by
  refine ⟨?_, ?_, ?_, ?_⟩
  · intro cand e he
    simp only [similarities] at he
    rcases List.mem_map.mp he with ⟨fp, _, rfl⟩
    simp [WEIGHTS]
  · intro cand
    obtain ⟨m, pre, post, hm, _, _, _⟩ :=
      bestEntry_of_ne_nil (similarities_ne_nil ef tf hf cand)
    rw [scoreCandidate_eq ef tf favs cand m hm]
  · intro cand
    obtain ⟨m, pre, post, hm, heq, hpre, hpost⟩ :=
      bestEntry_of_ne_nil (similarities_ne_nil ef tf hf cand)
    refine ⟨m, ?_, ?_, ?_, ?_, ?_, ?_⟩
    · rw [heq]
      exact List.mem_append.mpr (Or.inr (List.mem_cons_self m post))
    · intro q hq
      rw [heq] at hq
      rcases List.mem_append.mp hq with hq | hq
      · exact le_of_lt (hpre q hq)
      · rcases List.mem_cons.mp hq with hq | hq
        · exact hq ▸ le_refl _
        · exact hpost q hq
    all_goals rw [scoreCandidate_eq ef tf favs cand m hm]
  · unfold rankCandidates
    rw [if_neg]
    intro hor
    rcases hor with h | h
    · exact hf h
    · exact hc h

/-- Witness for C2: at a concrete input, the aggregate score of a candidate
is the mean of its per-favorite combined scores. -/
theorem rankCandidates_scoring_witness :
    (scoreCandidate efZero tfEmpty [favF1] candX).similarityScore
      = ((similarities efZero tfEmpty [favF1] candX).map SimEntry.score).sum
        / ((similarities efZero tfEmpty [favF1] candX).length : ℝ) :=
  (rankCandidates_scoring efZero tfEmpty [favF1] [candX]
    (by simp) (by simp)).2.1 candX

theorem getElem?_append_cons {α : Type} (pre : List α) (m : α)
    (post : List α) : (pre ++ m :: post)[pre.length]? = some m := by
  induction pre with
  | nil => simp
  | cons x xs ih => simpa using ih

/-- C10: for every candidate, the reported best-matching favorite is the
earliest favorite attaining the maximal combined score: in the
`similarities` array (one entry per favorite, in favorites order) every
entry strictly before the reported one has a strictly smaller combined
score, every entry after it scores no higher, and the reported entry
belongs to the favorite at that position — because the
`item.score > max.score` fold replaces the current best only on a strictly
greater score. -/
theorem rankCandidates_earliest_best (ef : String → List ℝ)
    (tf : String → Nat → List Topic) (favs : List Podcast) (cand : Podcast)
    (hf : favs ≠ []) :
    ∃ pre m post, similarities ef tf favs cand = pre ++ m :: post ∧
      (∀ q ∈ pre, q.score < m.score) ∧
      (∀ q ∈ post, q.score ≤ m.score) ∧
      (∃ f, favs[pre.length]? = some f ∧ m.favoriteId = f.id ∧
        m.favoritePodcast = f) ∧
      (scoreCandidate ef tf favs cand).mostSimilarPodcastId = m.favoriteId ∧
      (scoreCandidate ef tf favs cand).mostSimilarPodcast
        = m.favoritePodcast ∧
      (scoreCandidate ef tf favs cand).semanticScore = m.semanticScore ∧
      (scoreCandidate ef tf favs cand).topicScore = m.topicScore ∧
      (scoreCandidate ef tf favs cand).matchScore = m.score := by
  obtain ⟨m, pre, post, hm, heq, hpre, hpost⟩ :=
    bestEntry_of_ne_nil (similarities_ne_nil ef tf hf cand)
  refine ⟨pre, m, post, heq, hpre, hpost, ?_, ?_, ?_, ?_, ?_, ?_⟩
  · have hget : (similarities ef tf favs cand)[pre.length]? = some m := by
      rw [heq]
      exact getElem?_append_cons pre m post
    simp only [similarities, List.getElem?_map] at hget
    match hfav : favs[pre.length]? with
    | none => rw [hfav] at hget; simp at hget
    | some f =>
        rw [hfav] at hget
        simp only [Option.map_some'] at hget
        refine ⟨f, rfl, ?_, ?_⟩
        · rw [← Option.some.inj hget]
        · rw [← Option.some.inj hget]
  all_goals rw [scoreCandidate_eq ef tf favs cand m hm]

/-- Witness for C10: the earliest-best decomposition at a concrete input
(two favorites tied at combined score 0; the first is reported). -/
theorem rankCandidates_earliest_best_witness :
    ∃ pre m post,
      similarities efZero tfEmpty [favF1, favF2] candX = pre ++ m :: post ∧
      (∀ q ∈ pre, q.score < m.score) ∧
      (∀ q ∈ post, q.score ≤ m.score) ∧
      (∃ f, [favF1, favF2][pre.length]? = some f ∧ m.favoriteId = f.id ∧
        m.favoritePodcast = f) ∧
      (scoreCandidate efZero tfEmpty [favF1, favF2] candX).mostSimilarPodcastId
        = m.favoriteId ∧
      (scoreCandidate efZero tfEmpty [favF1, favF2] candX).mostSimilarPodcast
        = m.favoritePodcast ∧
      (scoreCandidate efZero tfEmpty [favF1, favF2] candX).semanticScore
        = m.semanticScore ∧
      (scoreCandidate efZero tfEmpty [favF1, favF2] candX).topicScore
        = m.topicScore ∧
      (scoreCandidate efZero tfEmpty [favF1, favF2] candX).matchScore
        = m.score :=
  rankCandidates_earliest_best efZero tfEmpty [favF1, favF2] candX (by simp)

/-! ## Claim C1: output length and sort order -/

theorem mem_insertRanked {x y : RankedCandidate} :
    ∀ {l : List RankedCandidate}, y ∈ insertRanked x l → y = x ∨ y ∈ l := by
  intro l
  induction l with
  | nil =>
      intro h
      simpa [insertRanked] using h
  | cons z zs ih =>
      intro h
      by_cases hz : z.similarityScore ≤ x.similarityScore
      · rw [show insertRanked x (z :: zs) = x :: z :: zs by
          simp only [insertRanked]; rw [if_pos hz]] at h
        rcases List.mem_cons.mp h with h | h
        · exact Or.inl h
        · exact Or.inr h
      · rw [show insertRanked x (z :: zs) = z :: insertRanked x zs by
          simp only [insertRanked]; rw [if_neg hz]] at h
        rcases List.mem_cons.mp h with h | h
        · exact Or.inr (h ▸ List.mem_cons_self z zs)
        · rcases ih h with h' | h'
          · exact Or.inl h'
          · exact Or.inr (List.mem_cons_of_mem z h')

theorem sorted_insertRanked {x : RankedCandidate} :
    ∀ {l : List RankedCandidate},
      List.Sorted (fun a b => b.similarityScore ≤ a.similarityScore) l →
      List.Sorted (fun a b => b.similarityScore ≤ a.similarityScore)
        (insertRanked x l) := by
  intro l
  induction l with
  | nil =>
      intro _
      simp [insertRanked]
  | cons z zs ih =>
      intro h
      rw [List.sorted_cons] at h
      obtain ⟨hz, hzs⟩ := h
      by_cases hc : z.similarityScore ≤ x.similarityScore
      · rw [show insertRanked x (z :: zs) = x :: z :: zs by
          simp only [insertRanked]; rw [if_pos hc]]
        rw [List.sorted_cons]
        refine ⟨?_, List.sorted_cons.mpr ⟨hz, hzs⟩⟩
        intro b hb
        rcases List.mem_cons.mp hb with hb | hb
        · exact hb ▸ hc
        · exact le_trans (hz b hb) hc
      · rw [show insertRanked x (z :: zs) = z :: insertRanked x zs by
          simp only [insertRanked]; rw [if_neg hc]]
        rw [List.sorted_cons]
        refine ⟨?_, ih hzs⟩
        intro b hb
        rcases mem_insertRanked hb with hb | hb
        · exact hb ▸ le_of_not_le hc
        · exact hz b hb

theorem sorted_sortBySimilarityDesc (l : List RankedCandidate) :
    List.Sorted (fun a b => b.similarityScore ≤ a.similarityScore)
      (sortBySimilarityDesc l) := by
  induction l with
  | nil => simp [sortBySimilarityDesc]
  | cons x xs ih => exact sorted_insertRanked ih

/-- C1 amended: for non-empty favorites and candidates,
`generateRecommendations` returns at most 10 records, and they are the
first 10 images of the ranked-candidates list, which is sorted descending
by the aggregate `similarityScore` (the mean of per-favorite combined
scores) — not by the emitted `similarity_score` field, which carries the
best-pair score and need not be descending. -/
theorem generateRecommendations_top10_sorted_by_aggregate
    (ef : String → List ℝ) (tf : String → Nat → List Topic)
    (favorites candidates : List Podcast)
    (hf : favorites ≠ []) (hc : candidates ≠ []) :
    (generateRecommendations ef tf favorites candidates).length ≤ 10 ∧
    List.Sorted (fun a b => b.similarityScore ≤ a.similarityScore)
      (rankCandidates ef tf favorites candidates) ∧
    generateRecommendations ef tf favorites candidates
      = ((rankCandidates ef tf favorites candidates).map
          toRecommendation).take 10 := by
  have hsorted : List.Sorted
      (fun a b => b.similarityScore ≤ a.similarityScore)
      (rankCandidates ef tf favorites candidates) := by
    unfold rankCandidates
    by_cases hg : favorites = [] ∨ candidates = []
    · rw [if_pos hg]
      simp
    · rw [if_neg hg]
      exact sorted_sortBySimilarityDesc _
  have heq : generateRecommendations ef tf favorites candidates
      = ((rankCandidates ef tf favorites candidates).map
          toRecommendation).take 10 := by
    unfold generateRecommendations
    rw [if_neg (by
      intro hor
      rcases hor with h | h
      · exact hf h
      · exact hc h)]
    by_cases hlen : (rankCandidates ef tf favorites candidates).length = 0
    · rw [if_pos hlen]
      rw [List.length_eq_zero] at hlen
      rw [hlen]
      rfl
    · rw [if_neg hlen]
  refine ⟨?_, hsorted, heq⟩
  rw [heq, List.length_take]
  exact min_le_left 10 _

/-- Witness for C1 amended: the bound and the aggregate-sorted shape at a
concrete input. -/
theorem generateRecommendations_top10_sorted_witness :
    (generateRecommendations efZero tfEmpty [favF1] [candX]).length ≤ 10 ∧
    List.Sorted (fun a b => b.similarityScore ≤ a.similarityScore)
      (rankCandidates efZero tfEmpty [favF1] [candX]) ∧
    generateRecommendations efZero tfEmpty [favF1] [candX]
      = ((rankCandidates efZero tfEmpty [favF1] [candX]).map
          toRecommendation).take 10 :=
  generateRecommendations_top10_sorted_by_aggregate efZero tfEmpty
    [favF1] [candX] (by simp) (by simp)

/-- C1 counterexample: with two favorites and two candidates realising
combined scores (0.27, 0.27) for X and (0.45, 0) for Y, the output order is
[X, Y] (means 0.27 > 0.225) but the emitted `similarity_score` fields are
[0.27, 0.45] — not sorted descending by the displayed score. -/
theorem generateRecommendations_not_sorted_by_emitted_score :
    ((generateRecommendations efZero tfFixture [favF1, favF2]
        [candX, candY]).map Recommendation.similarity_score
      = [27/100, 9/20]) ∧
    ¬ List.Sorted (fun a b : Recommendation =>
        b.similarity_score ≤ a.similarity_score)
      (generateRecommendations efZero tfFixture [favF1, favF2]
        [candX, candY]) := by
  have hX : scoreCandidate efZero tfFixture [favF1, favF2] candX =
      { podcast := candX, similarityScore := 27/100,
        mostSimilarPodcastId := "F1", mostSimilarPodcast := favF1,
        semanticScore := 0, topicScore := 3/5, matchScore := 27/100 } := by
    simp [scoreCandidate, similarities, bestEntry, bestFold, descOf, strOr,
      embedInput, createWeightedText, pubOf, efZero, tfFixture,
      calculateCosineSimilarity, calculateTopicSimilarity, topicMap,
      mapInsert, mapLookup, WEIGHTS, min_def, favF1, favF2, candX]
    norm_num
  have hY : scoreCandidate efZero tfFixture [favF1, favF2] candY =
      { podcast := candY, similarityScore := 9/40,
        mostSimilarPodcastId := "F1", mostSimilarPodcast := favF1,
        semanticScore := 0, topicScore := 1, matchScore := 9/20 } := by
    simp [scoreCandidate, similarities, bestEntry, bestFold, descOf, strOr,
      embedInput, createWeightedText, pubOf, efZero, tfFixture,
      calculateCosineSimilarity, calculateTopicSimilarity, topicMap,
      mapInsert, mapLookup, WEIGHTS, min_def, favF1, favF2, candY]
    norm_num
  have hrank : rankCandidates efZero tfFixture [favF1, favF2] [candX, candY]
      = [{ podcast := candX, similarityScore := 27/100,
           mostSimilarPodcastId := "F1", mostSimilarPodcast := favF1,
           semanticScore := 0, topicScore := 3/5, matchScore := 27/100 },
         { podcast := candY, similarityScore := 9/40,
           mostSimilarPodcastId := "F1", mostSimilarPodcast := favF1,
           semanticScore := 0, topicScore := 1, matchScore := 9/20 }] := by
    unfold rankCandidates
    rw [if_neg (by simp)]
    rw [List.map_cons, List.map_cons, List.map_nil, hX, hY]
    simp only [sortBySimilarityDesc, insertRanked]
    rw [if_pos (by norm_num)]
  have hrec : generateRecommendations efZero tfFixture [favF1, favF2]
      [candX, candY]
      = ((rankCandidates efZero tfFixture [favF1, favF2]
          [candX, candY]).map toRecommendation).take 10 :=
    (generateRecommendations_top10_sorted_by_aggregate efZero tfFixture
      [favF1, favF2] [candX, candY] (by simp) (by simp)).2.2
  rw [hrec, hrank, List.map_cons, List.map_cons, List.map_nil,
    List.take_of_length_le (by simp)]
  constructor
  · simp [toRecommendation]
  · intro hsorted
    rw [List.sorted_cons] at hsorted
    have := hsorted.1 (toRecommendation
      { podcast := candY, similarityScore := 9/40,
        mostSimilarPodcastId := "F1", mostSimilarPodcast := favF1,
        semanticScore := 0, topicScore := 1, matchScore := 9/20 })
      (by simp)
    simp only [toRecommendation] at this
    norm_num at this

/-! ## Claim C4: the keyword-based query (strategy 2) -/

theorem queryContains_iff {l : List SearchQuery} {x : SearchQuery} :
    l.contains x = true ↔ x ∈ l := by
  rw [show l.contains x = l.elem x from rfl, List.elem_iff]

theorem mem_dedupQueriesAux {x : SearchQuery} :
    ∀ (l : List SearchQuery) (seen : List SearchQuery),
      x ∈ l → x ∉ seen → x ∈ dedupQueriesAux seen l := by
  intro l
  induction l with
  | nil =>
      intro seen hx _
      simp at hx
  | cons q rest ih =>
      intro seen hx hseen
      by_cases hq : x = q
      · subst hq
        by_cases hc : seen.contains x = true
        · exact absurd (queryContains_iff.mp hc) hseen
        · rw [show dedupQueriesAux seen (x :: rest)
                = x :: dedupQueriesAux (x :: seen) rest by
            simp only [dedupQueriesAux]
            rw [if_neg hc]]
          exact List.mem_cons_self _ _
      · have hxr : x ∈ rest := by
          rcases List.mem_cons.mp hx with h | h
          · exact absurd h hq
          · exact h
        by_cases hc : seen.contains q = true
        · rw [show dedupQueriesAux seen (q :: rest)
                = dedupQueriesAux seen rest by
            simp only [dedupQueriesAux]
            rw [if_pos hc]]
          exact ih seen hxr hseen
        · rw [show dedupQueriesAux seen (q :: rest)
                = q :: dedupQueriesAux (q :: seen) rest by
            simp only [dedupQueriesAux]
            rw [if_neg hc]]
          refine List.mem_cons_of_mem q (ih (q :: seen) hxr ?_)
          intro hin
          rcases List.mem_cons.mp hin with h | h
          · exact hq h
          · exact hseen h

theorem mem_removeDuplicateQueries {x : SearchQuery}
    {l : List SearchQuery} (h : x ∈ l) : x ∈ removeDuplicateQueries l :=
  mem_dedupQueriesAux l [] h (by simp)

theorem strategy2Keywords_eq (podcasts : List Podcast) :
    strategy2Keywords podcasts
      = (extractKeywords
          (String.intercalate " " (podcasts.map descOf)) 10).filter
          (fun kw => decide (3 < kw.length)
            && !((publisherWords podcasts).contains (jsToLowerString kw))) := by
  unfold strategy2Keywords
  refine List.filter_congr fun kw _ => ?_
  by_cases hlen : 3 < kw.length
  · have hne : kw ≠ "" := by
      intro hc
      rw [hc] at hlen
      simp at hlen
    simp [hne, hlen]
  · simp [hlen]

/-- C4 amended: the strategy-2 query is built from the top-10 keywords of
the concatenated favorite descriptions after removing every keyword of
length ≤ 3 and every keyword equal, case-insensitively, to a
**whitespace-separated word** of a favorite's publisher name (not to the
whole publisher name); if any keyword survives, a query whose `q` is the
top surviving keyword is emitted. -/
theorem generateDiverseQueries_keyword_strategy
    (tf : String → Nat → List Topic) (podcasts : List Podcast)
    (hp : podcasts ≠ []) (k : String) (ks : List String)
    (hk : (extractKeywords
            (String.intercalate " " (podcasts.map descOf)) 10).filter
            (fun kw => decide (3 < kw.length)
              && !((publisherWords podcasts).contains (jsToLowerString kw)))
          = k :: ks) :
    defaultQuery k ∈ generateDiverseQueries tf podcasts := by
  unfold generateDiverseQueries
  rw [if_neg hp]
  rw [show strategy2Keywords podcasts = k :: ks from
    (strategy2Keywords_eq podcasts).trans hk]
  refine mem_removeDuplicateQueries ?_
  rcases extractThemesFromPodcasts tf podcasts with _ | ⟨t, ts⟩ <;>
    simp [List.mem_append]

/-- Witness for C4 amended: for the fixture favorite, "media" is removed as
a publisher word, "chess" is the top surviving keyword, and the
corresponding query is emitted. -/
theorem generateDiverseQueries_keyword_strategy_witness :
    defaultQuery "chess" ∈ generateDiverseQueries tfEmpty [favC4] :=
  generateDiverseQueries_keyword_strategy tfEmpty [favC4] (by simp)
    "chess" [] (by decide)

/-- C4 counterexample: for a favorite with publisher "Acme Media" and
description "media media chess", the claim's filter (whole publisher name,
case-insensitive) keeps "media" as the top keyword, but the code filters
out every *word* of the publisher, so the emitted keyword query uses
"chess" and no emitted query has q = "media". -/
theorem generateDiverseQueries_publisher_word_counterexample :
    strategy2SurvivorsSpec [favC4] = ["media", "chess"] ∧
    (generateDiverseQueries tfEmpty [favC4]).map SearchQuery.q = ["chess"] ∧
    defaultQuery "media" ∉ generateDiverseQueries tfEmpty [favC4] := by
  refine ⟨by decide, by decide, by decide⟩
